import Mathlib

/-!
Verification development for the zune-inflate DEFLATE/zlib decompressor
(`src/zune-inflate/src/decoder.rs`).

The decoder is shallowly embedded: machine integers become `Nat` with
explicit wrapping (`% 2 ^ 64`) where the Rust code can wrap, slices become
`List Nat` of byte values, mutable arrays become update functions
`Nat → Nat`, and fallible code returns `Except` / an explicit result type
with a `panicked` outcome for the places where the Rust code can panic
(failed `assert_eq!`, out-of-bounds slice indexing, usize underflow).

`decoder.rs` is embedded from its source.  The modules it uses that are not
part of the source tree (`bitstream.rs`, `utils.rs`, `constants.rs`,
`errors.rs`) are modelled from the specification; each such definition
carries a doc comment starting with `Modelled from the spec:`.
-/

namespace ZuneInflate

/-- Bytes are naturals below 256; streams of compressed input are byte lists. -/
abbrev Bytes := List Nat

/-! ## Constants (`constants.rs` is not in the source tree).

Modelled from the spec: §3 "Decode tables" (table widths and bounds),
§4.2 (block types), §4.3 (codeword length bounds), §4.2.4d (precode
permutation), §3 "Decode table entry" (flag bits). -/

def DEFLATE_BLOCKTYPE_UNCOMPRESSED : Nat := 0
def DEFLATE_BLOCKTYPE_STATIC : Nat := 1
def DEFLATE_BLOCKTYPE_DYNAMIC_HUFFMAN : Nat := 2

def DEFLATE_MAX_CODEWORD_LENGTH : Nat := 15
def DEFLATE_MAX_LITLEN_CODEWORD_LENGTH : Nat := 15
def DEFLATE_MAX_OFFSET_CODEWORD_LENGTH : Nat := 15
def DEFLATE_MAX_PRE_CODEWORD_LEN : Nat := 7
def DEFLATE_NUM_PRECODE_SYMS : Nat := 19
def DEFLATE_NUM_LITLEN_SYMS : Nat := 288
def DEFLATE_NUM_OFFSET_SYMS : Nat := 32
def DEFLATE_MAX_NUM_SYMS : Nat := 288
def DELFATE_MAX_LENS_OVERRUN : Nat := 137

def PRECODE_TABLE_BITS : Nat := 7
def LITLEN_TABLE_BITS : Nat := 11
def LITLEN_DECODE_BITS : Nat := 11
def OFFSET_TABLEBITS : Nat := 8

/-- Modelled from the spec: decode-table entry flags.  `EXCEPTIONAL` (bit 15)
is set for subtable pointers and end-of-block entries, `SUITABLE_POINTER`
(bit 14) when an entry redirects to a subtable; the end-of-block marker and
the literal marker are separate mask bits, placed so that they never collide
with the consume-width (bits 0–7), the extra-bits/subtable-width field
(bits 8–13) or the 16-bit payload of literal/base entries. -/
def HUFFDEC_EXCEPTIONAL : Nat := 0x8000
def HUFFDEC_SUITABLE_POINTER : Nat := 0x4000
def HUFFDEC_END_OF_BLOCK : Nat := 0x2000
def HUFFDEC_LITERAL : Nat := 0x80000000

/-- Modelled from the spec: the fixed permutation order in which the 3-bit
precode lengths are stored (§4.2 step 4d). -/
def DEFLATE_PRECODE_LENS_PERMUTATION : List Nat :=
  [16, 17, 18, 0, 8, 7, 9, 6, 10, 5, 11, 4, 12, 3, 13, 2, 14, 1, 15]

def FASTCOPY_BITS : Nat := 16
def RESIZE_BY : Nat := 4096

/-! ## Precomputed decode-result tables.

Modelled from the spec: §4.3 (a precomputed table mapping symbol index to a
partial result entry: literal byte / length base+extra / offset base+extra /
EOB marker) and §6 (the standard RFC 1951 base and extra-bits tables for
length symbols 257–285 and offset symbols 0–29). -/

/-- Length bases for litlen symbols 257..285 (index 0 is symbol 257). -/
def lengthBases : List Nat :=
  [3, 4, 5, 6, 7, 8, 9, 10, 11, 13, 15, 17, 19, 23] ++
    [27, 31, 35, 43, 51, 59, 67, 83, 99, 115, 131, 163, 195, 227, 258]

/-- Extra-bit counts for litlen symbols 257..285 (index 0 is symbol 257). -/
def lengthExtras : List Nat :=
  [0, 0, 0, 0, 0, 0, 0, 0, 1, 1, 1, 1, 2, 2] ++
    [2, 2, 3, 3, 3, 3, 4, 4, 4, 4, 5, 5, 5, 5, 0]

/-- Offset bases for offset symbols 0..29. -/
def offsetBases : List Nat :=
  [1, 2, 3, 4, 5, 7, 9, 13, 17, 25, 33, 49, 65, 97, 129] ++
    [193, 257, 385, 513, 769, 1025, 1537, 2049, 3073, 4097, 6145, 8193,
     12289, 16385, 24577]

/-- Extra-bit counts for offset symbols 0..29. -/
def offsetExtras : List Nat :=
  [0, 0, 0, 0, 1, 1, 2, 2, 3, 3, 4, 4, 5, 5, 6] ++
    [6, 7, 7, 8, 8, 9, 9, 10, 10, 11, 11, 12, 12, 13, 13]

/-- Modelled from the spec: the precode results carry the precode symbol in
the 16-bit payload. -/
def PRECODE_DECODE_RESULTS (sym : Nat) : Nat := sym <<< 16

/-- Modelled from the spec: litlen results are literal entries for symbols
0–255 (payload = literal byte, `LITERAL` flag), the end-of-block marker for
symbol 256 (`EXCEPTIONAL | END_OF_BLOCK`), and base+extra length entries for
257–285.  The reserved symbols 286 and 287 get a zero base and no extra
bits. -/
def LITLEN_DECODE_RESULTS (sym : Nat) : Nat :=
  if sym < 256 then (sym <<< 16) ||| HUFFDEC_LITERAL
  else if sym = 256 then HUFFDEC_EXCEPTIONAL ||| HUFFDEC_END_OF_BLOCK
  else (lengthBases.getD (sym - 257) 0 <<< 16) ||| lengthExtras.getD (sym - 257) 0

/-- Modelled from the spec: offset results are base+extra entries for offset
symbols 0–29; the reserved symbols 30 and 31 get a zero base. -/
def OFFSET_DECODE_RESULTS (sym : Nat) : Nat :=
  (offsetBases.getD sym 0 <<< 16) ||| offsetExtras.getD sym 0

/-- Modelled from the spec: §4.3 step 6 — a table entry is the precomputed
partial result for the symbol, plus the codeword length in the consume-width
byte; the length is also added into the bits 8–13 field so that for
base+extra entries bits 0–7 hold the total (codeword + extra) width and
bits 8–15 the shift needed to isolate the extra bits. -/
def make_decode_table_entry (decode_results : Nat → Nat) (sym len : Nat) : Nat :=
  decode_results sym + (len <<< 8) + len

/-! ## Errors (`errors.rs` is not in the source tree).

Modelled from the spec: §7 error taxonomy, restricted to the variants that
`decoder.rs` actually constructs (`InsufficientData`, `CorruptData`, and the
generic string errors used for header, stored-block and table failures). -/

inductive ZlibDecodeErrors where
  | insufficientData : ZlibDecodeErrors
  | corruptData : ZlibDecodeErrors
  | generic (msg : String) : ZlibDecodeErrors
  | genericStr (msg : String) : ZlibDecodeErrors
deriving DecidableEq, Repr

/-! ## Bit reader (`bitstream.rs` is not in the source tree). -/

/-- Modelled from the spec: §3 "Bit buffer state" — a word-sized accumulator
`buffer` (64 bits), a count `bitsLeft` of valid bits, a byte cursor
`position` into the input, with bits consumed low-to-high and bytes appended
at the high end. -/
structure BitStreamReader where
  src : Bytes
  buffer : Nat
  bitsLeft : Nat
  position : Nat
deriving Repr

namespace BitStreamReader

def new (data : Bytes) : BitStreamReader :=
  { src := data, buffer := 0, bitsLeft := 0, position := 0 }

/-- Little-endian 64-bit word starting at byte `pos` of `data`. -/
def readLE64 (data : Bytes) (pos : Nat) : Nat :=
  (data.getD pos 0) ||| (data.getD (pos + 1) 0 <<< 8) |||
  (data.getD (pos + 2) 0 <<< 16) ||| (data.getD (pos + 3) 0 <<< 24) |||
  (data.getD (pos + 4) 0 <<< 32) ||| (data.getD (pos + 5) 0 <<< 40) |||
  (data.getD (pos + 6) 0 <<< 48) ||| (data.getD (pos + 7) 0 <<< 56)

/-- Modelled from the spec: the byte-at-a-time tail of `refill` — while
`bitsLeft ≤ 56` and at least one input byte remains, append one byte above
the valid bits.  At most 8 bytes can ever be appended, so recursion on an
8-step counter is exact. -/
def refillSlow : Nat → BitStreamReader → BitStreamReader
  | 0, s => s
  | n + 1, s =>
    if s.bitsLeft ≤ 56 ∧ s.position < s.src.length then
      refillSlow n
        { s with
          buffer := (s.buffer ||| (s.src.getD s.position 0 <<< s.bitsLeft)) % 2 ^ 64,
          position := s.position + 1,
          bitsLeft := s.bitsLeft + 8 }
    else s

/-- Modelled from the spec: §4.1 `refill()` — wide speculative refill.  When
at least 8 input bytes remain, a whole little-endian word is loaded above
the valid bits, the byte cursor advances by the number of whole bytes that
fit, and `bitsLeft` is topped up to at least 56 (`bitsLeft ||| 56`); the
bytes that did not fit are re-read by the next refill.  Near the end of the
input, bytes are loaded one at a time and a shorter fill is accepted. -/
def refill (s : BitStreamReader) : BitStreamReader :=
  if s.position + 8 ≤ s.src.length then
    { s with
      buffer := (s.buffer ||| (readLE64 s.src s.position <<< s.bitsLeft)) % 2 ^ 64,
      position := s.position + (63 - s.bitsLeft) / 8,
      bitsLeft := s.bitsLeft ||| 56 }
  else refillSlow 8 s

/-- Modelled from the spec: `peek<N>()` returns `buf & ((1<<N)-1)`. -/
def peekBits (s : BitStreamReader) (n : Nat) : Nat := s.buffer % 2 ^ n

/-- Modelled from the spec: `peek_var(n)`, same with runtime width. -/
def peekVarBits (s : BitStreamReader) (n : Nat) : Nat := s.buffer % 2 ^ n

/-- Modelled from the spec: `drop(n)`: `buf >>= n; bits_left -= n`. -/
def dropBits (s : BitStreamReader) (n : Nat) : BitStreamReader :=
  { s with buffer := s.buffer >>> n, bitsLeft := s.bitsLeft - n }

/-- Modelled from the spec: `get(N)`: peek then drop. -/
def getBits (s : BitStreamReader) (n : Nat) : Nat × BitStreamReader :=
  (s.peekBits n, s.dropBits n)

/-- Modelled from the spec: `has(n)`: `bits_left ≥ n`. -/
def has (s : BitStreamReader) (n : Nat) : Bool := n ≤ s.bitsLeft

def getBitsLeft (s : BitStreamReader) : Nat := s.bitsLeft

/-- Modelled from the spec: `get_position()` — byte index of the next unread
byte, `position - (bits_left >> 3)`. -/
def getPosition (s : BitStreamReader) : Nat := s.position - s.bitsLeft / 8

/-- Modelled from the spec: the derived count of input bytes not yet passed
by the byte cursor. -/
def remainingBytes (s : BitStreamReader) : Nat := s.src.length - s.position

/-- Modelled from the spec: §4.2 step 2 — after a stored block the reader is
advanced past the copied bytes by resetting its byte cursor (the buffered
bits are discarded).  In this source snapshot the call is unreachable: the
stored-block path always errors out on the LEN/NLEN comparison first. -/
def reset (s : BitStreamReader) : BitStreamReader :=
  { s with position := s.getPosition, buffer := 0, bitsLeft := 0 }

end BitStreamReader

/-! ## Result type

`Res` is the outcome of a decoder computation: a value, a returned error,
a Rust panic (failed `assert_eq!`, out-of-bounds slice index, or usize
underflow), or exhaustion of the fuel that makes the embedded loops
structurally recursive.  `fuelOut` is a model artifact only: every theorem
below evaluates with ample fuel, so an outcome of `panicked` or `err` can
never be an artifact of missing fuel. -/

inductive Res (α : Type) where
  | ok (a : α) : Res α
  | err (e : ZlibDecodeErrors) : Res α
  | panicked : Res α
  | fuelOut : Res α

/-- Whether a result is `ok`. -/
def Res.isOk {α : Type} : Res α → Bool
  | .ok _ => true
  | _ => false

/-- The payload of an `ok` result, with a default for the other cases. -/
def Res.getOk {α : Type} (d : α) : Res α → α
  | .ok a => a
  | _ => d

/-! ## Decode-table construction (`build_decode_table_inner`, decoder.rs
lines 873-1204).

The fixed-size scratch arrays of the source (`len_counts : [u32; 16]`,
`offsets : [u32; 16]`, `sorted_syms : [u16; 288]`, the `lens : [u8; 457]`
scratch) are embedded as `List Nat` of the same length, with reads as
`getD _ 0` and writes as `List.set`.  The decode tables themselves are
embedded as update functions `Nat -> Nat` so that the table-doubling step
(`copy_within`) is a constant-size overlay. -/

/-- Point update of a table-as-function. -/
def updF (f : Nat → Nat) (i v : Nat) : Nat → Nat :=
  fun j => if j = i then v else f j

/-- `slice[start..start + n].fill(v)` on a list. -/
def fillRangeL (l : List Nat) (start n v : Nat) : List Nat :=
  l.take start ++ List.replicate (min n (l.length - start)) v ++ l.drop (start + n)

/-- `decode_table.copy_within(0..curr, curr)`: the first `curr` entries are
copied onto the next `curr` entries. -/
def copyWithinDouble (f : Nat → Nat) (curr : Nat) : Nat → Nat :=
  fun j => if curr ≤ j ∧ j < curr + curr then f (j - curr) else f j

/-- Lines 889-892: count how many codewords have each length, including 0. -/
def lenCountsL (lens : List Nat) (numSyms : Nat) : List Nat :=
  (List.range numSyms).foldl
    (fun cnt sym => cnt.set (lens.getD sym 0) (cnt.getD (lens.getD sym 0) 0 + 1))
    (List.replicate (DEFLATE_MAX_CODEWORD_LENGTH + 1) 0)

/-- Lines 898-901: decrease `max_codeword_len` while its top bucket is
empty (stopping at 1). -/
def reduceMaxLen (cnt : List Nat) : Nat → Nat
  | 0 => 0
  | 1 => 1
  | m + 2 => if cnt.getD (m + 2) 0 = 0 then reduceMaxLen cnt (m + 1) else m + 2

/-- Lines 911-921: build the cumulative `offsets` array and, in the same
pass, the codespace accumulator of the `for len in 1..max_codeword_len`
loop (before the final shift-and-add of the top bucket). -/
def offsetsLoop (cnt : List Nat) (maxLen : Nat) : List Nat × Nat :=
  (List.range' 1 (maxLen - 1)).foldl
    (fun acc len =>
      (acc.1.set (len + 1) (acc.1.getD len 0 + cnt.getD len 0),
       (acc.2 <<< 1) + cnt.getD len 0))
    (((List.replicate (DEFLATE_MAX_CODEWORD_LENGTH + 1) 0).set 0 0).set 1 (cnt.getD 0 0), 0)

/-- Lines 923-929: place each symbol into `sorted_syms` at
`offsets[len_of_sym]`, incrementing that offset.  Returns the sorted
symbols and the mutated offsets. -/
def sortSyms (lens : List Nat) (numSyms : Nat) (offs : List Nat) :
    List Nat × List Nat :=
  (List.range numSyms).foldl
    (fun acc sym =>
      (acc.1.set (acc.2.getD (lens.getD sym 0) 0) sym,
       acc.2.set (lens.getD sym 0) (acc.2.getD (lens.getD sym 0) 0 + 1)))
    (List.replicate DEFLATE_MAX_NUM_SYMS 0, offs)

/-- Helper for the highest-set-bit search: scan exponents from `k - 1`
downwards for the first with `2 ^ e ≤ x`. -/
def hiBitAux : Nat → Nat → Nat
  | 0, _ => 0
  | k + 1, x => if x < 2 ^ k then hiBitAux k x else k

/-- `usize::BITS - 1 - leading_zeros(x)`: the index of the highest set bit
of `x` (for `x > 0`; the codewords here are below `2 ^ 16`). -/
def hiBitIdx (x : Nat) : Nat := hiBitAux 16 x

/-- Lines 1013-1026: starting from length 1, advance to the first length
with a nonzero count; the loop breaks (with count 0) if the length reaches
the size of `len_counts` (16).  At most 16 iterations can occur. -/
def advanceLen0 (cnt : List Nat) : Nat → Nat × Nat → Nat × Nat
  | 0, st => st
  | fuel + 1, (len, count) =>
    if count = 0 then
      let len2 := len + 1
      if 16 ≤ len2 then (len2, count)
      else advanceLen0 cnt fuel (len2, cnt.getD len2 0)
    else (len, count)

/-- Lines 1045-1054: on the last codeword of a length `len ≤ table_bits`,
double the occupied region once for each remaining length up to
`table_bits` (`for _ in len..table_bits`). -/
def finishDoubling : Nat → (Nat → Nat) → Nat → (Nat → Nat)
  | 0, table, _ => table
  | k + 1, table, curr => finishDoubling k (copyWithinDouble table curr) (curr <<< 1)

/-- Lines 1084-1106: advance to the next codeword length with a nonzero
count, doubling the occupied region while the length stays within
`table_bits`.  Returns (len, table, curr_table_end, count). -/
def advanceLenFill (cnt : List Nat) (tableBits : Nat) :
    Nat → Nat × (Nat → Nat) × Nat → Nat × (Nat → Nat) × Nat × Nat
  | 0, (len, table, curr) => (len, table, curr, cnt.getD len 0)
  | fuel + 1, (len, table, curr) =>
    let len2 := len + 1
    let tc :=
      if len2 ≤ tableBits then (copyWithinDouble table curr, curr <<< 1) else (table, curr)
    if cnt.getD len2 0 ≠ 0 then (len2, tc.1, tc.2, cnt.getD len2 0)
    else advanceLenFill cnt tableBits fuel (len2, tc.1, tc.2)

/-- State of the table-filling loops: the table built so far, the current
(bit-reversed) codeword, its length, the number of codewords of that length
still to place, the index into `sorted_syms`, and the current end of the
occupied table region. -/
structure FillSt where
  table : Nat → Nat
  codeword : Nat
  len : Nat
  count : Nat
  i : Nat
  currTableEnd : Nat

/-- Outcome of the main (primary-table) filling loop: the finished table
(the source returned `Ok` at the last codeword), or the state at which
lengths exceeded `table_bits` and subtables are required. -/
inductive FillOut where
  | done (table : Nat → Nat) : FillOut
  | toSub (st : FillSt) : FillOut
  | fuelOut : FillOut

/-- Lines 1030-1107: process all codewords with `len ≤ table_bits`.  Each
codeword writes one entry; the lexicographically next codeword is obtained
by setting the highest-order zero bit of
`codeword XOR (curr_table_end - 1)` and clearing the bits above it
(`BITS - leading_zeros` is the index of the highest set bit, `hiBitIdx`). -/
def fillMain (cnt sortedS : List Nat) (results : Nat → Nat) (tableBits : Nat) :
    Nat → FillSt → FillOut
  | 0, _ => .fuelOut
  | fuel + 1, st =>
    if st.len ≤ tableBits then
      let entry := make_decode_table_entry results (sortedS.getD st.i 0) st.len
      let i2 := st.i + 1
      let table2 := updF st.table st.codeword entry
      if st.codeword = st.currTableEnd - 1 then
        .done (finishDoubling (tableBits - st.len) table2 st.currTableEnd)
      else
        let adv := hiBitIdx (st.codeword ^^^ (st.currTableEnd - 1))
        let bit := 2 ^ adv
        let codeword2 := st.codeword % bit + bit
        if st.count - 1 = 0 then
          let next := advanceLenFill cnt tableBits 17 (st.len, table2, st.currTableEnd)
          fillMain cnt sortedS results tableBits fuel
            { table := next.2.1, codeword := codeword2, len := next.1,
              count := next.2.2.2, i := i2, currTableEnd := next.2.2.1 }
        else
          fillMain cnt sortedS results tableBits fuel
            { st with table := table2, codeword := codeword2, count := st.count - 1, i := i2 }
    else .toSub st

/-- Lines 1138-1151: grow the subtable width until its codespace is exactly
filled; growing past a total width of 15 is `CorruptData`. -/
def subGrow (cnt : List Nat) (tableBits : Nat) :
    Nat → Nat → Nat → Res Nat
  | 0, _, _ => .fuelOut
  | fuel + 1, sb, cs =>
    if cs < 2 ^ sb then
      let sb2 := sb + 1
      if sb2 + tableBits > 15 then .err .corruptData
      else subGrow cnt tableBits fuel sb2 ((cs <<< 1) + cnt.getD (tableBits + sb2) 0)
    else .ok sb

/-- Lines 1179-1183: fill the subtable entries for the current codeword
with the given stride. -/
def strideFill (entry stride currEnd : Nat) : Nat → (Nat → Nat) → Nat → (Nat → Nat)
  | 0, table, _ => table
  | fuel + 1, table, j =>
    if j < currEnd then strideFill entry stride currEnd fuel (updF table j entry) (j + stride)
    else table

/-- Lines 1198-1202: advance to the next length with a nonzero count. -/
def advanceCountSub (cnt : List Nat) : Nat → Nat × Nat → Nat × Nat
  | 0, st => st
  | fuel + 1, (len, count) =>
    if count = 0 then advanceCountSub cnt fuel (len + 1, cnt.getD (len + 1) 0) else (len, count)

/-- State of the subtable loop: table-fill state plus the current subtable
prefix (initially `usize::MAX`) and subtable start. -/
structure SubSt extends FillSt where
  subPfx : Nat
  subStart : Nat

/-- Lines 1116-1203: process codewords longer than `table_bits`, starting a
new subtable whenever the `table_bits`-bit prefix changes, writing the
pointer entry into the main table and the symbol entries into the
subtable. -/
def subLoop (cnt sortedS : List Nat) (results : Nat → Nat) (tableBits : Nat) :
    Nat → SubSt → Res (Nat → Nat)
  | 0, _ => .fuelOut
  | fuel + 1, st =>
    let newTable : Res (Nat × Nat × (Nat → Nat) × Nat) :=
      if st.codeword % 2 ^ tableBits ≠ st.subPfx then
        let subPfx := st.codeword % 2 ^ tableBits
        let subStart := st.currTableEnd
        match subGrow cnt tableBits 17 (st.len - tableBits) st.count with
        | .ok sb =>
          .ok (subPfx, subStart,
               updF st.table subPfx
                 ((subStart <<< 16) ||| HUFFDEC_EXCEPTIONAL ||| HUFFDEC_SUITABLE_POINTER |||
                  (sb <<< 8) ||| tableBits),
               subStart + 2 ^ sb)
        | .err e => .err e
        | .panicked => .panicked
        | .fuelOut => .fuelOut
      else .ok (st.subPfx, st.subStart, st.table, st.currTableEnd)
    match newTable with
    | .err e => .err e
    | .panicked => .panicked
    | .fuelOut => .fuelOut
    | .ok (subPfx, subStart, table, currEnd) =>
      let stride := 2 ^ (st.len - tableBits)
      let j := subStart + (st.codeword >>> tableBits)
      let entry := make_decode_table_entry results (sortedS.getD st.i 0) (st.len - tableBits)
      let i2 := st.i + 1
      let table2 := strideFill entry stride currEnd 200 table j
      if st.codeword = 2 ^ st.len - 1 then .ok table2
      else
        let adv := hiBitIdx (st.codeword ^^^ (2 ^ st.len - 1))
        let bit := 2 ^ adv
        let codeword2 := st.codeword % bit + bit
        let lc := advanceCountSub cnt 17 (st.len, st.count - 1)
        subLoop cnt sortedS results tableBits fuel
          { table := table2, codeword := codeword2, len := lc.1, count := lc.2,
            i := i2, currTableEnd := currEnd, subPfx := subPfx, subStart := subStart }

/-- Fuel bound for the codeword-filling loops; at most 288 codewords exist,
so 600 iterations are ample. -/
def BUILD_FUEL : Nat := 600

/-- Lines 873-1204: `build_decode_table_inner`.  Counts lengths, reduces
the maximum length, sorts symbols, computes the used codespace, validates
(overfull / incomplete), and fills the primary table and subtables. -/
def build_decode_table_inner (lens : List Nat) (decode_results : Nat → Nat)
    (table_bits num_syms max_codeword_len : Nat) : Res (Nat → Nat) :=
  let cnt := lenCountsL lens num_syms
  let maxLen := reduceMaxLen cnt max_codeword_len
  let offsAcc := offsetsLoop cnt maxLen
  let codespace_used := (offsAcc.2 <<< 1) + cnt.getD maxLen 0
  let sorted := sortSyms lens num_syms offsAcc.1
  let sortedS := sorted.1
  let i0 := sorted.2.getD 0 0
  if codespace_used > 2 ^ maxLen then .err (.generic "Overflown code")
  else if codespace_used < 2 ^ maxLen then
    (if codespace_used = 0 then
      .ok (fun _ => make_decode_table_entry decode_results 0 1)
    else if codespace_used ≠ 2 ^ maxLen ∨ cnt.getD 1 0 ≠ 1 then
      .err (.generic "Cannot work with empty pre-code table")
    else
      .ok (fun _ => make_decode_table_entry decode_results (sortedS.getD i0 0) 1))
  else
    let lc0 := advanceLen0 cnt 16 (1, cnt.getD 1 0)
    let st0 : FillSt :=
      { table := fun _ => 0, codeword := 0, len := lc0.1, count := lc0.2,
        i := i0, currTableEnd := 2 ^ lc0.1 }
    match fillMain cnt sortedS decode_results table_bits BUILD_FUEL st0 with
    | .done t => .ok t
    | .fuelOut => .fuelOut
    | .toSub st =>
      subLoop cnt sortedS decode_results table_bits BUILD_FUEL
        { toFillSt := { st with currTableEnd := 2 ^ table_bits },
          subPfx := 2 ^ 64 - 1, subStart := 0 }

/-! ## `build_decode_table` (decoder.rs lines 651-870). -/

/-- `COUNT` (line 653): size of the `lens` scratch array, litlen + offset
symbol counts plus the worst-case repeat overrun. -/
def LENS_COUNT : Nat :=
  DEFLATE_NUM_LITLEN_SYMS + DEFLATE_NUM_OFFSET_SYMS + DELFATE_MAX_LENS_OVERRUN

/-- The cached decode tables of the decoder (lines 17-21). -/
structure DeflateHeaderTables where
  litlen_decode_table : Nat → Nat
  offset_decode_table : Nat → Nat

/-- The decoder fields mutated by `build_decode_table`. -/
structure DecoderState where
  static_codes_loaded : Bool
  tables : DeflateHeaderTables

/-- Outcome of one iteration of the code-length reading loop (lines
736-826): an error, a bottom-of-loop exit with the index at or past the
target, or a continuation. -/
inductive PreStep where
  | errP (e : ZlibDecodeErrors) : PreStep
  | doneP (lens : List Nat) (s : BitStreamReader) : PreStep
  | contP (lens : List Nat) (i : Nat) (s : BitStreamReader) : PreStep

/-- Lines 736-826: one iteration of the code-length reading loop.  Refill
when fewer than `DEFLATE_MAX_PRE_CODEWORD_LEN + 7` bits are buffered, look
up and consume a precode symbol.  Symbols 0-15 are explicit lengths; 16
repeats the previous length `3 + 2 extra bits` times (failing when there is
no previous length; the source always writes 6 entries but advances by the
repeat count); 17 writes `3 + 3 extra bits` zeros (always writing 10); 18
writes `11 + 7 extra bits` zeros.  After a repeat, reaching or passing the
target exits the loop; overrunning it is not an error — the excess entries
land in the overrun margin of the scratch array. -/
def precodeStep (precode_table : Nat → Nat) (target : Nat)
    (lens : List Nat) (i : Nat) (s : BitStreamReader) : PreStep :=
  let s := if ¬ s.has (DEFLATE_MAX_PRE_CODEWORD_LEN + 7) then s.refill else s
  let entry := precode_table (s.peekBits DEFLATE_MAX_PRE_CODEWORD_LEN)
  let presym := entry >>> 16
  if ¬ s.has (entry % 256) then .errP .insufficientData
  else
    let s := s.dropBits (entry % 256)
    if presym < 16 then .contP (lens.set i presym) (i + 1) s
    else if presym = 16 then
      if i = 0 then .errP .corruptData
      else if ¬ s.has 2 then .errP .insufficientData
      else
        let b := s.peekBits 2
        let s := s.dropBits 2
        let rep_val := lens.getD (i - 1) 0
        let rep_count := 3 + b
        let lens := fillRangeL lens i 6 rep_val
        let i := i + rep_count
        if i ≥ target then .doneP lens s else .contP lens i s
    else if presym = 17 then
      if ¬ s.has 3 then .errP .insufficientData
      else
        let b := s.peekBits 3
        let s := s.dropBits 3
        let rep_count := 3 + b
        let lens := fillRangeL lens i 10 0
        let i := i + rep_count
        if i ≥ target then .doneP lens s else .contP lens i s
    else
      if ¬ s.has 7 then .errP .insufficientData
      else
        let b := s.peekBits 7
        let s := s.dropBits 7
        let rep_count := 11 + b
        let lens := fillRangeL lens i rep_count 0
        let i := i + rep_count
        if i ≥ target then .doneP lens s else .contP lens i s

/-- Lines 722-827: decode `num_litlen_syms + num_offset_syms` code-length
symbols through the precode table, one `precodeStep` at a time, stopping
as soon as the index reaches the target. -/
def readLitlenOffsetLens (precode_table : Nat → Nat) (target : Nat) :
    Nat → List Nat → Nat → BitStreamReader → Res (List Nat × BitStreamReader)
  | 0, _, _, _ => .fuelOut
  | fuel + 1, lens, i, s =>
    if i ≥ target then .ok (lens, s)
    else
      match precodeStep precode_table target lens i s with
      | .errP e => .err e
      | .doneP lens2 s2 => .ok (lens2, s2)
      | .contP lens2 i2 s2 => readLitlenOffsetLens precode_table target fuel lens2 i2 s2

/-- Lines 838-842: the fixed code lengths for a static block, written over
the zeroed scratch array: 0-143 get 8, 144-255 get 9, 256-279 get 7,
280-287 get 8, and everything from 288 on gets 5. -/
def staticLensArray : List Nat :=
  fillRangeL
    (fillRangeL
      (fillRangeL
        (fillRangeL
          (fillRangeL (List.replicate LENS_COUNT 0) 0 144 8)
          144 112 9)
        256 24 7)
      280 8 8)
    288 (LENS_COUNT - 288) 5

/-- Lines 847-869: build the offset table from `lens[num_litlen_syms..]`
and then the litlen table from `lens`, storing both into the decoder
state. -/
def buildLitlenOffset (st : DecoderState) (lens : List Nat)
    (num_litlen_syms num_offset_syms : Nat) (s : BitStreamReader) :
    Res (DecoderState × BitStreamReader) :=
  match build_decode_table_inner (lens.drop num_litlen_syms) OFFSET_DECODE_RESULTS
      OFFSET_TABLEBITS num_offset_syms DEFLATE_MAX_OFFSET_CODEWORD_LENGTH with
  | .err e => .err e
  | .panicked => .panicked
  | .fuelOut => .fuelOut
  | .ok offT =>
    match build_decode_table_inner lens LITLEN_DECODE_RESULTS LITLEN_TABLE_BITS
        num_litlen_syms DEFLATE_MAX_LITLEN_CODEWORD_LENGTH with
    | .err e => .err e
    | .panicked => .panicked
    | .fuelOut => .fuelOut
    | .ok litT =>
      .ok ({ st with
             tables := { litlen_decode_table := litT, offset_decode_table := offT } }, s)

/-- The offset decode table built from the fixed static lengths (the `ok`
payload of the first `build_decode_table_inner` call of the static
branch). -/
def staticOffsetTable : Nat → Nat :=
  (build_decode_table_inner (staticLensArray.drop DEFLATE_NUM_LITLEN_SYMS)
    OFFSET_DECODE_RESULTS OFFSET_TABLEBITS DEFLATE_NUM_OFFSET_SYMS
    DEFLATE_MAX_OFFSET_CODEWORD_LENGTH).getOk (fun _ => 0)

/-- The litlen decode table built from the fixed static lengths (the `ok`
payload of the second `build_decode_table_inner` call of the static
branch). -/
def staticLitlenTable : Nat → Nat :=
  (build_decode_table_inner staticLensArray LITLEN_DECODE_RESULTS
    LITLEN_TABLE_BITS DEFLATE_NUM_LITLEN_SYMS
    DEFLATE_MAX_LITLEN_CODEWORD_LENGTH).getOk (fun _ => 0)

/-- Lines 651-870: `build_decode_table`.  For a dynamic block, read the
HLIT/HDIST/HCLEN header, the permuted 3-bit precode lengths, build the
precode table and decode the litlen/offset code lengths; for a static
block, return immediately when the static tables are already cached,
otherwise install the fixed lengths and mark them cached; in both cases
(and for any other block type, with zero symbol counts) build the offset
and litlen tables. -/
def build_decode_table (st : DecoderState) (block_type : Nat)
    (s : BitStreamReader) : Res (DecoderState × BitStreamReader) :=
  if block_type = DEFLATE_BLOCKTYPE_DYNAMIC_HUFFMAN then
    let st := { st with static_codes_loaded := false }
    if ¬ s.has (5 + 5 + 4) then .err .insufficientData
    else
      let hlit := s.peekBits 5
      let s := s.dropBits 5
      let num_litlen_syms := 257 + hlit
      let hdist := s.peekBits 5
      let s := s.dropBits 5
      let num_offset_syms := 1 + hdist
      let hclen := s.peekBits 4
      let s := s.dropBits 4
      let num_explicit_precode_lens := 4 + hclen
      let s := s.refill
      if ¬ s.has 3 then .err .insufficientData
      else
        let first_precode := s.peekBits 3
        let s := s.dropBits 3
        let expected := (3 * (num_explicit_precode_lens - 1)) % 256
        let precode_lens := (List.replicate DEFLATE_NUM_PRECODE_SYMS 0).set
          (DEFLATE_PRECODE_LENS_PERMUTATION.getD 0 0) first_precode
        let s := s.refill
        if ¬ s.has expected then .err .insufficientData
        else
          let pl := ((DEFLATE_PRECODE_LENS_PERMUTATION.drop 1).take
              (num_explicit_precode_lens - 1)).foldl
            (fun acc p => (acc.1.set p (acc.2.peekBits 3), acc.2.dropBits 3))
            (precode_lens, s)
          match build_decode_table_inner pl.1 PRECODE_DECODE_RESULTS
              PRECODE_TABLE_BITS DEFLATE_NUM_PRECODE_SYMS DEFLATE_MAX_CODEWORD_LENGTH with
          | .err e => .err e
          | .panicked => .panicked
          | .fuelOut => .fuelOut
          | .ok precode_table =>
            match readLitlenOffsetLens precode_table (num_litlen_syms + num_offset_syms)
                400 (List.replicate LENS_COUNT 0) 0 pl.2 with
            | .err e => .err e
            | .panicked => .panicked
            | .fuelOut => .fuelOut
            | .ok ls =>
              buildLitlenOffset st ls.1 num_litlen_syms num_offset_syms ls.2
  else if block_type = DEFLATE_BLOCKTYPE_STATIC then
    if st.static_codes_loaded then .ok (st, s)
    else
      buildLitlenOffset { st with static_codes_loaded := true } staticLensArray
        DEFLATE_NUM_LITLEN_SYMS DEFLATE_NUM_OFFSET_SYMS s
  else
    buildLitlenOffset st (List.replicate LENS_COUNT 0) 0 0 s

/-! ## Copy helpers (`utils.rs` is not in the source tree). -/

/-- Modelled from the spec: §4.4 step 7 "Overlapping: byte-by-byte forward
copy so repeats like abcabcabc work" — `copy_rep_matches(out, src, dest,
length)` copies one byte at a time, each read seeing the bytes already
written by the same call. -/
def copy_rep_matches : List Nat → Nat → Nat → Nat → List Nat
  | out, _, _, 0 => out
  | out, src, dest, n + 1 =>
    copy_rep_matches (out.set dest (out.getD src 0)) (src + 1) (dest + 1) n

/-- Modelled from the spec: `const_copy::<N, false>` — an unconditional
N-byte copy inside the output buffer.  The source region is the split-off
prefix `out[0..destSplit)` (a snapshot no write of this call aliases), the
destination starts at the absolute index `destAbs ≥ destSplit`.  A read the
Rust code would make past the end of the source slice (possible only in
branches whose result is then fully overwritten) is modelled as 0. -/
def const_copy (out : List Nat) (destSplit srcOff destAbs n : Nat) : List Nat :=
  (List.range n).foldl
    (fun acc k =>
      acc.set (destAbs + k) (if srcOff + k < destSplit then out.getD (srcOff + k) 0 else 0))
    out

/-- An `n`-byte run of the value `v` written at `pos` (the effect of
`const_copy::<8, false>` from the broadcast buffer `rep_byte`). -/
def writeRun (out : List Nat) (pos v n : Nat) : List Nat :=
  (List.range n).foldl (fun acc k => acc.set (pos + k) v) out

/-- Lines 431-445: the RLE broadcast loop — write the repeated byte in
8-byte strides starting at `destAbs`, stopping once the written count
exceeds `length`. -/
def rleLoop (destAbs rep length : Nat) : Nat → List Nat → Nat → List Nat
  | 0, out, _ => out
  | fuel + 1, out, bw =>
    let out := writeRun out (destAbs + bw) rep 8
    let bw := bw + 8
    if bw > length then out else rleLoop destAbs rep length fuel out bw

/-- Lines 466-497: the fast non-overlapping copy loop — copy 16-byte chunks
(after the initial unconditional 16-byte copy) until fewer than
`2 * FASTCOPY_BITS` bytes remain to cover. -/
def fastChunkLoop (destSplit : Nat) : Nat → List Nat → Nat → Nat → Nat → List Nat
  | 0, out, _, _, _ => out
  | fuel + 1, out, srcOff, destAbs, ml =>
    let out := const_copy out destSplit srcOff destAbs FASTCOPY_BITS
    let srcOff := srcOff + FASTCOPY_BITS
    let destAbs := destAbs + FASTCOPY_BITS
    if ml < 2 * FASTCOPY_BITS then out
    else fastChunkLoop destSplit fuel out srcOff destAbs (ml - FASTCOPY_BITS)

/-- Lines 1212-1220: `resize_and_push` — extend the buffer by `RESIZE_BY`
zeros when the write position is past the end, then write the byte. -/
def resize_and_push (buf : List Nat) (position : Nat) (elm : Nat) : List Nat :=
  let buf := if buf.length ≤ position then buf ++ List.replicate RESIZE_BY 0 else buf
  buf.set position elm

/-- Lines 397-498: the back-reference handling of the fast loop, output
side only (the interleaved bit-stream operations commute with it): reject
`offset > dest_offset`, grow the output to keep `FASTCOPY_BITS` slack, do
the unconditional 16-byte copy, then the RLE broadcast (`offset == 1`), the
byte-by-byte overlapping copy, or the 16-byte-chunk copy (`length >
FASTCOPY_BITS`); a short non-overlapping match is fully covered by the
unconditional copy. -/
def fastBackref (out : List Nat) (dest_offset length offset : Nat) : Res (List Nat) :=
  if offset > dest_offset then .err .corruptData
  else
    let src_offset := dest_offset - offset
    let out :=
      if dest_offset + length + FASTCOPY_BITS > out.length then
        out ++ List.replicate (RESIZE_BY + length) 0
      else out
    let out := const_copy out dest_offset src_offset dest_offset FASTCOPY_BITS
    if offset = 1 then
      .ok (rleLoop dest_offset (out.getD src_offset 0) length 40 out 0)
    else if src_offset + length + FASTCOPY_BITS > dest_offset then
      .ok (copy_rep_matches out src_offset dest_offset length)
    else if length > FASTCOPY_BITS then
      .ok (fastChunkLoop dest_offset 40 out (src_offset + FASTCOPY_BITS)
            (dest_offset + FASTCOPY_BITS) length)
    else .ok out

/-- Lines 574-613: the back-reference handling of the safe loop, output
side only: grow the output to keep `FASTCOPY_BITS` slack, reject
`offset > dest_offset`, then copy byte-by-byte when the regions are within
`FASTCOPY_BITS` of overlapping and as a plain disjoint copy otherwise. -/
def safeBackref (out : List Nat) (dest_offset length offset : Nat) : Res (List Nat) :=
  let out :=
    if dest_offset + length + FASTCOPY_BITS > out.length then
      out ++ List.replicate (RESIZE_BY + length) 0
    else out
  if offset > dest_offset then .err .corruptData
  else
    let src_offset := dest_offset - offset
    if src_offset + length + FASTCOPY_BITS > dest_offset then
      .ok (copy_rep_matches out src_offset dest_offset length)
    else
      .ok (const_copy out dest_offset src_offset dest_offset length)

/-! ## The inner decode loops (decoder.rs lines 225-616). -/

/-- Fuel for the per-symbol loops. -/
def LOOP_FUEL : Nat := 100000

/-- Lines 514-616: the safe loop.  Refill before every symbol, look up the
litlen entry (redirecting through a subtable when `SUITABLE_POINTER` is
set), guard every drop with `has`, emit literals, stop at end-of-block, and
otherwise decode the match length and offset and copy. -/
def safePhase (litT offT : Nat → Nat) :
    Nat → BitStreamReader → List Nat → Nat → Res (BitStreamReader × List Nat × Nat)
  | 0, _, _, _ => .fuelOut
  | fuel + 1, s0, out, dest =>
    let s := s0.refill
    let entry0 := litT (s.peekBits LITLEN_DECODE_BITS)
    let saved0 := s.buffer
    if ¬ s.has (entry0 % 256) then .err .insufficientData
    else
      let s1 := s.dropBits (entry0 % 256)
      let es : Nat × Nat × BitStreamReader :=
        if entry0 &&& HUFFDEC_SUITABLE_POINTER ≠ 0 then
          let extra := s1.peekVarBits ((entry0 >>> 8) % 64)
          let entry2 := litT ((entry0 >>> 16) + extra)
          (entry2, s1.buffer, s1.dropBits (entry2 % 256))
        else (entry0, saved0, s1)
      let entry := es.1
      let saved_bitbuf := es.2.1
      let s := es.2.2
      let length := entry >>> 16
      if entry &&& HUFFDEC_LITERAL ≠ 0 then
        safePhase litT offT fuel s (resize_and_push out dest (length % 256)) (dest + 1)
      else if entry &&& HUFFDEC_END_OF_BLOCK ≠ 0 then
        .ok (s, out, dest)
      else
        let mask := 2 ^ (entry % 256) - 1
        let length := length + ((saved_bitbuf &&& mask) >>> ((entry >>> 8) % 256))
        let s := s.refill
        let oentry := offT (s.peekBits OFFSET_TABLEBITS)
        let os : Nat × BitStreamReader :=
          if oentry &&& HUFFDEC_EXCEPTIONAL ≠ 0 then
            let s2 := s.dropBits OFFSET_TABLEBITS
            let extra := s2.peekVarBits ((oentry >>> 8) % 64)
            (offT (((oentry >>> 16) + extra) % 512), s2)
          else (oentry, s)
        let entry := os.1
        let s := os.2
        let saved_bitbuf := s.buffer
        let mask := 2 ^ (entry % 256) - 1
        let offset := (entry >>> 16) + ((saved_bitbuf &&& mask) >>> ((entry >>> 8) % 256))
        -- the source checks the offset bound (CorruptData) before the bit
        -- count (InsufficientData); `safeBackref` repeats the offset check
        -- and performs the resize and copy
        if offset > dest then .err .corruptData
        else if ¬ s.has (entry % 256) then .err .insufficientData
        else
          let s := s.dropBits (entry % 256)
          match safeBackref out dest length offset with
          | .err e => .err e
          | .ok out2 => safePhase litT offT fuel s out2 (dest + length)
          | .panicked => .panicked
          | .fuelOut => .fuelOut

/-- Outcome of the fast sequence loop: end of block, transfer to the safe
loop, an error, or fuel exhaustion. -/
inductive FastOut where
  | eob (s : BitStreamReader) (out : List Nat) (dest : Nat) : FastOut
  | toSafe (s : BitStreamReader) (out : List Nat) (dest : Nat) : FastOut
  | errOut (e : ZlibDecodeErrors) : FastOut
  | fuelOut : FastOut

/-- Result of the non-literal tail of a fast-loop iteration: continue the
sequence with a preloaded entry, or one of the `FastOut` outcomes. -/
inductive TailOut where
  | cont (entry : Nat) (s : BitStreamReader) (out : List Nat) (dest : Nat) : TailOut
  | eobT (s : BitStreamReader) (out : List Nat) (dest : Nat) : TailOut
  | toSafeT (s : BitStreamReader) (out : List Nat) (dest : Nat) : TailOut
  | errT (e : ZlibDecodeErrors) : TailOut

/-- Lines 357-506: the match part of a fast-loop iteration — the entry is a
length entry whose bits are consumed and whose original bit-buffer is in
`saved_bitbuf`: decode the match length and offset (through the offset
subtable when needed), preload the next litlen entry, copy, and transfer to
the safe loop when the input tail is near. -/
def fastMatch (litT offT : Nat → Nat) (entry saved_bitbuf : Nat)
    (s : BitStreamReader) (out : List Nat) (dest : Nat) : TailOut :=
  let length := entry >>> 16
  let mask := 2 ^ (entry % 256) - 1
  let length := length + ((saved_bitbuf &&& mask) >>> ((entry >>> 8) % 256))
  let oentry := offT (s.peekBits OFFSET_TABLEBITS)
  let os : Nat × BitStreamReader :=
    if oentry &&& HUFFDEC_EXCEPTIONAL ≠ 0 then
      let s2 := s.dropBits OFFSET_TABLEBITS
      let extra := s2.peekVarBits ((oentry >>> 8) % 64)
      (offT (((oentry >>> 16) + extra) % 512), s2)
    else (oentry, s)
  let oe := os.1
  let s := os.2
  let saved2 := s.buffer
  let s := s.dropBits (oe % 256)
  let omask := 2 ^ (oe % 256) - 1
  let offset := (oe >>> 16) + ((saved2 &&& omask) >>> ((oe >>> 8) % 256))
  let next_entry := litT (s.peekBits LITLEN_DECODE_BITS)
  match fastBackref out dest length offset with
  | .err e => .errT e
  | .panicked => .errT .corruptData
  | .fuelOut => .errT .corruptData
  | .ok out2 =>
    let dest2 := dest + length
    if 2 * FASTCOPY_BITS > s.remainingBytes then .toSafeT s out2 dest2
    else .cont next_entry s out2 dest2

/-- Lines 314-506: the tail of a fast-loop iteration once the carried entry
(bits already consumed, original bit-buffer in `saved_bitbuf`) is not a
fast literal: end-of-block exit, subtable dispatch (which can yield a
literal, an end-of-block, or a length entry), then the match flow. -/
def fastTail (litT offT : Nat → Nat) (entry saved_bitbuf : Nat)
    (s : BitStreamReader) (out : List Nat) (dest : Nat) : TailOut :=
  if entry &&& HUFFDEC_EXCEPTIONAL ≠ 0 then
    if entry &&& HUFFDEC_END_OF_BLOCK ≠ 0 then .eobT s out dest
    else
      let entry_position := (entry >>> 8) % 64
      let pos := (entry >>> 16) + s.peekVarBits entry_position
      let entry2 := litT pos
      let saved2 := s.buffer
      let s := s.dropBits (entry2 % 256)
      if entry2 &&& HUFFDEC_LITERAL ≠ 0 then
        let new_pos := s.peekBits LITLEN_DECODE_BITS
        let literal := entry2 >>> 16
        let entry3 := litT new_pos
        let out := resize_and_push out dest (literal % 256)
        .cont entry3 s out (dest + 1)
      else if entry2 &&& HUFFDEC_END_OF_BLOCK ≠ 0 then
        .eobT s out dest
      else
        fastMatch litT offT entry2 saved2 s out dest
  else
    fastMatch litT offT entry saved_bitbuf s out dest

/-- Lines 237-507: the fast sequence loop.  Each iteration transfers to the
safe loop when fewer than `2 * FASTCOPY_BITS` input bytes remain, refills,
consumes the carried entry, decodes up to two extra fast literals, and
otherwise runs the non-literal tail. -/
def fastSeq (litT offT : Nat → Nat) :
    Nat → Nat → BitStreamReader → List Nat → Nat → FastOut
  | 0, _, _, _, _ => .fuelOut
  | fuel + 1, entry, s, out, dest =>
    if 2 * FASTCOPY_BITS > s.remainingBytes then .toSafe s out dest
    else
      let s := s.refill
      let saved_bitbuf := s.buffer
      let s := s.dropBits (entry % 256)
      if entry &&& HUFFDEC_LITERAL ≠ 0 then
        let new_pos := s.peekBits LITLEN_DECODE_BITS
        let literal := entry >>> 16
        let entry2 := litT new_pos
        let saved2 := s.buffer
        let s := s.dropBits (entry2 % 256)
        let out := resize_and_push out dest (literal % 256)
        let dest := dest + 1
        if entry2 &&& HUFFDEC_LITERAL ≠ 0 then
          let new_pos2 := s.peekBits LITLEN_DECODE_BITS
          let literal2 := entry2 >>> 16
          let entry3 := litT new_pos2
          let out := resize_and_push out dest (literal2 % 256)
          fastSeq litT offT fuel entry3 s out (dest + 1)
        else
          match fastTail litT offT entry2 saved2 s out dest with
          | .cont e s2 o2 d2 => fastSeq litT offT fuel e s2 o2 d2
          | .eobT s2 o2 d2 => .eob s2 o2 d2
          | .toSafeT s2 o2 d2 => .toSafe s2 o2 d2
          | .errT e => .errOut e
      else
        match fastTail litT offT entry saved_bitbuf s out dest with
        | .cont e s2 o2 d2 => fastSeq litT offT fuel e s2 o2 d2
        | .eobT s2 o2 d2 => .eob s2 o2 d2
        | .toSafeT s2 o2 d2 => .toSafe s2 o2 d2
        | .errT e => .errOut e

/-! ## Adler-32 (`calc_adler_hash` lives in `utils.rs`, not in the source
tree). -/

/-- Modelled from the spec: §4.5 — `s1 = 1; s2 = 0; for each byte b:
s1 = (s1 + b) mod 65521; s2 = (s2 + s1) mod 65521;
checksum = (s2 << 16) | s1`. -/
def calc_adler_hash (data : Bytes) : Nat :=
  let p := data.foldl
    (fun acc b =>
      let s1 := (acc.1 + b) % 65521
      (s1, (acc.2 + s1) % 65521))
    (1, 0)
  (p.2 <<< 16) ||| p.1

/-! ## `start_deflate_block` (decoder.rs lines 127-647). -/

/-- The fresh decoder state of `DeflateDecoder::new` (lines 51-63): static
codes not loaded, zeroed tables. -/
def initState : DecoderState :=
  { static_codes_loaded := false,
    tables := { litlen_decode_table := fun _ => 0, offset_decode_table := fun _ => 0 } }

/-- Fuel for the per-block loop. -/
def BLOCK_FUEL : Nat := 1000

/-- Lines 143-623: the per-block loop.  Read `BFINAL` and `BTYPE`; a stored
block aligns, reads LEN/NLEN, compares `len` with the 64-bit complement
`!nlen` (`len` and `nlen` are `usize` in the source, so the comparison is
against `2^64 - 1 - nlen`), and appends the raw bytes (out-of-bounds input
indexing is a panic); any other block type builds tables and runs the fast
and/or safe loop to the end-of-block symbol.  Returns the stream, buffer
and write cursor after the final block. -/
def blockLoop (data : Bytes) (position : Nat) :
    Nat → DecoderState → BitStreamReader → List Nat → Nat →
    Res (BitStreamReader × List Nat × Nat)
  | 0, _, _, _, _ => .fuelOut
  | fuel + 1, st, s, out, dest =>
    if ¬ s.has 3 then .err .insufficientData
    else
      let is_last_block := s.peekBits 1 = 1
      let s := s.dropBits 1
      let block_type := s.peekBits 2
      let s := s.dropBits 2
      if block_type = DEFLATE_BLOCKTYPE_UNCOMPRESSED then
        -- `overread_count` is the constant 0, so the first guard never fires
        if 0 > s.getBitsLeft >>> 3 then .err (.generic "Over-read stream")
        else
          let partial_bits := s.getBitsLeft % 8
          if ¬ s.has (32 + partial_bits) then .err .insufficientData
          else
            let s := s.dropBits partial_bits
            let len := s.peekBits 16
            let s := s.dropBits 16
            let nlen := s.peekBits 16
            let s := s.dropBits 16
            if len ≠ 2 ^ 64 - 1 - nlen then .err (.generic "Len and nlen do not match")
            else
              let start := s.getPosition + position
              -- resize by `len` and copy `data[start..start+len]` onto the
              -- appended region; the slice read panics when it passes the
              -- end of the input
              if start + len > data.length then .panicked
              else
                let out := out ++ ((data.drop start).take len)
                if is_last_block then .ok (s, out, dest)
                else blockLoop data position fuel st s.reset out dest
      else
        match build_decode_table st block_type s with
        | .err e => .err e
        | .panicked => .panicked
        | .fuelOut => .fuelOut
        | .ok (st, s) =>
          let litT := st.tables.litlen_decode_table
          let offT := st.tables.offset_decode_table
          let close_src := 3 * FASTCOPY_BITS < s.remainingBytes
          let phase : Res (BitStreamReader × List Nat × Nat) :=
            if close_src then
              let s := s.refill
              let entry := litT (s.peekBits LITLEN_DECODE_BITS)
              match fastSeq litT offT LOOP_FUEL entry s out dest with
              | .eob s2 o2 d2 => .ok (s2, o2, d2)
              | .toSafe s2 o2 d2 => safePhase litT offT LOOP_FUEL s2 o2 d2
              | .errOut e => .err e
              | .fuelOut => .fuelOut
            else safePhase litT offT LOOP_FUEL s out dest
          match phase with
          | .err e => .err e
          | .panicked => .panicked
          | .fuelOut => .fuelOut
          | .ok (s, out, dest) =>
            if is_last_block then .ok (s, out, dest)
            else blockLoop data position fuel st s out dest

/-- Big-endian 32-bit value of 4 bytes. -/
def u32be (a b c d : Nat) : Nat := (a <<< 24) ||| (b <<< 16) ||| (c <<< 8) ||| d

/-- Lines 127-647: `start_deflate_block`.  A fresh bit reader is created
over `data[position..]` and refilled; the output starts as 37000 zero
bytes with write cursor 0; after the block loop, the source computes
`out_pos = get_position() - (bits_left >> 3)` (a usize subtraction that
panics when it underflows — note `get_position()` already subtracts the
buffered whole bytes), truncates the output to the write cursor,
unconditionally reads the 4 trailer bytes
`data[position + out_pos .. position + out_pos + 4]` (a panic when past
the end of the input) and `assert_eq!`s them against the Adler-32 of the
output (a panic when they differ). -/
def start_deflate_block (data : Bytes) (position : Nat) : Res Bytes :=
  let s := (BitStreamReader.new (data.drop position)).refill
  let out := List.replicate 37000 0
  match blockLoop data position BLOCK_FUEL initState s out 0 with
  | .err e => .err e
  | .panicked => .panicked
  | .fuelOut => .fuelOut
  | .ok (s, out, dest) =>
    if s.getPosition < s.bitsLeft >>> 3 then .panicked
    else
      let out_pos := s.getPosition - (s.bitsLeft >>> 3)
      let out := out.take dest
      if position + out_pos + 4 > data.length then .panicked
      else
        let adler32_expected := u32be (data.getD (position + out_pos) 0)
          (data.getD (position + out_pos + 1) 0)
          (data.getD (position + out_pos + 2) 0)
          (data.getD (position + out_pos + 3) 0)
        let adler32_found := calc_adler_hash out
        if adler32_expected = adler32_found then .ok out else .panicked

/-- Lines 121-124: `decode_deflate` — decode a raw DEFLATE stream (the
decoder's untouched `position` field is 0). -/
def decode_deflate (data : Bytes) : Res Bytes :=
  start_deflate_block data 0

/-- Lines 66-118: `decode_zlib` — require at least 2 + 4 input bytes, check
`CM = 8`, `CINFO ≤ 7` and the FCHECK residue, set `position` to 2 and
decode the DEFLATE payload. -/
def decode_zlib (data : Bytes) : Res Bytes :=
  if data.length < 2 + 4 then .err .insufficientData
  else
    let cmf := data.getD 0 0
    let flg := data.getD 1 0
    let cm := cmf % 16
    let cinfo := cmf / 16
    if cm ≠ 8 then
      (if cm = 15 then
        .err (.generic
          "CM of 15 is preserved by the standard,currently don't know how to handle it")
      else .err (.genericStr ("Unknown zlib compression method " ++ toString cm)))
    else if cinfo > 7 then
      .err (.genericStr ("Unknown cinfo `" ++ toString cinfo ++ "` greater than 7, not allowed"))
    else
      let flag_checks := cmf * 256 + flg
      if flag_checks % 31 ≠ 0 then .err (.generic "FCHECK integrity not preserved")
      else start_deflate_block data 2

/-! ## Theorems about the claims -/

set_option maxRecDepth 1000000
set_option maxHeartbeats 4000000

/-- C1: the claim says a stored block whose 16-bit LEN equals the one's
complement of NLEN is accepted, and in particular that `decode_zlib` on
`78 01 01 00 00 FF FF 00 00 00 01` (an empty stored block with LEN = 0x0000,
NLEN = 0xFFFF and a correct Adler-32 trailer) succeeds with empty output.
The code reads `len` and `nlen` into `usize` and compares `len != !nlen`,
so the comparison is against the 64-bit complement `2^64 - 1 - nlen`, which
can never equal a 16-bit `len`: every stored block — including this one —
is rejected with the `Len and nlen do not match` error. -/
theorem C1_empty_stored_block_rejected :
    decode_zlib [0x78, 0x01, 0x01, 0x00, 0x00, 0xFF, 0xFF, 0x00, 0x00, 0x00, 0x01]
      = .err (.generic "Len and nlen do not match") := by rfl

/-- C2: the claim says an Adler-32 trailer mismatch yields a
`ChecksumMismatch` error value, purely, with no panic.  The code instead
`assert_eq!`s the expected and computed checksums (line 643) — and before
that computes `out_pos = get_position() - (bits_left >> 3)` (line 625),
a usize subtraction that underflows whenever whole bytes are still
buffered, since `get_position()` already subtracts them.  On the zlib
input `78 01 03 00 00 00 00 02` (a static block containing only the
end-of-block symbol, followed by an incorrect trailer) the decode panics
instead of returning any error value. -/
theorem C2_checksum_mismatch_panics :
    decode_zlib [0x78, 0x01, 0x03, 0x00, 0x00, 0x00, 0x00, 0x02] = .panicked := by rfl

/-- C3: the claim says an incomplete code is accepted in exactly two cases
— an empty code (table filled with a synthetic length-1 entry for symbol 0)
and a code using exactly one symbol with codeword length 1.  The first and
the overfull rejection hold, but the single-symbol case is unreachable: in
the incomplete branch (`codespace_used < 1 << max_codeword_len`) the code
requires `codespace_used == 1 << max_codeword_len` (the upstream algorithm
compares against `1 << (max_codeword_len - 1)`), which contradicts the
branch condition, so a single symbol of length 1 — here the precode lengths
`[1, 0, ..., 0]` — is rejected, contradicting both the claim and the
comment in the source. -/
theorem C3_single_symbol_code_rejected :
    build_decode_table_inner (List.replicate DEFLATE_NUM_OFFSET_SYMS 0)
        OFFSET_DECODE_RESULTS OFFSET_TABLEBITS DEFLATE_NUM_OFFSET_SYMS
        DEFLATE_MAX_OFFSET_CODEWORD_LENGTH
      = .ok (fun _ => make_decode_table_entry OFFSET_DECODE_RESULTS 0 1) ∧
    build_decode_table_inner (((List.replicate DEFLATE_NUM_PRECODE_SYMS 0).set 0 1).set 1 1
          |>.set 2 1)
        PRECODE_DECODE_RESULTS PRECODE_TABLE_BITS DEFLATE_NUM_PRECODE_SYMS
        DEFLATE_MAX_CODEWORD_LENGTH
      = .err (.generic "Overflown code") ∧
    build_decode_table_inner ((List.replicate DEFLATE_NUM_PRECODE_SYMS 0).set 0 1)
        PRECODE_DECODE_RESULTS PRECODE_TABLE_BITS DEFLATE_NUM_PRECODE_SYMS
        DEFLATE_MAX_CODEWORD_LENGTH
      = .err (.generic "Cannot work with empty pre-code table") := ⟨rfl, rfl, rfl⟩

/-- C5: the claim says `decode_deflate` decodes a raw RFC 1951 stream and
neither requires nor reads any bytes beyond it (in particular no checksum
trailer).  `start_deflate_block` — shared by `decode_deflate` — always
reads 4 trailer bytes after the stream and `assert_eq!`s them against the
Adler-32 of the output (lines 632-644).  On the 2-byte raw DEFLATE stream
`03 00` (a static block containing only the end-of-block symbol, decoding
to the empty string) the trailer read indexes past the end of the input
and the decode panics. -/
theorem C5_decode_deflate_reads_trailer :
    decode_deflate [0x03, 0x00] = .panicked := by rfl

/-- C8: the claim says `decode_zlib` always terminates with a value or an
error, never panicking and never reading past the input slice.  On the
input `78 01 03 00 00 00` (a valid zlib header and a static block decoding
to the empty string, with the stream ending where the 4-byte trailer should
start) the unconditional trailer read `data[pos .. pos + 4]` passes the end
of the 6-byte slice and the decode panics. -/
theorem C8_trailer_read_panics :
    decode_zlib [0x78, 0x01, 0x03, 0x00, 0x00, 0x00] = .panicked := by rfl

/-- C6 counterexample: the claim says a repeat whose count runs past the
`litlen_count + offset_count` target is a `CorruptData` error.  In the
dynamic header stream below, HLIT = HDIST = 0 (target 257 + 1 = 258), the
precode gives symbols 18 and 0 one-bit codewords, and the code-length
sequence is two symbol-18 repeats of 138 zeros each, taking the index from
0 to 138 and then to 276 — past the target.  `build_decode_table` accepts
the stream (the excess lands in the overrun margin of the scratch array and
the empty litlen and offset codes build their synthetic tables), where the
claim requires a `CorruptData` error. -/
theorem C6_overrun_not_rejected :
    ∃ st s, build_decode_table initState DEFLATE_BLOCKTYPE_DYNAMIC_HUFFMAN
        ((BitStreamReader.new [0x00, 0x00, 0x90, 0xFC, 0xFF, 0x03]).refill)
      = .ok (st, s) := ⟨_, _, rfl⟩

/-- C7 counterexample: the claim says every zlib input with the
preset-dictionary bit set (`FLG & 0x20 != 0`) is rejected with a header
error, without decoding the DEFLATE payload.  `decode_zlib` never inspects
that bit: on `78 20 ...` (CM = 8, CINFO = 7, FCHECK valid, FDICT set) the
decoder proceeds into the payload and fails only inside the stored-block
LEN/NLEN comparison — the same non-header error the FDICT-clear twin
`78 01 ...` produces. -/
theorem C7_fdict_not_rejected :
    ([0x78, 0x20, 0x01, 0x00, 0x00, 0xFF, 0xFF, 0x00, 0x00, 0x00, 0x01].getD 1 0) &&& 0x20 ≠ 0 ∧
    decode_zlib [0x78, 0x20, 0x01, 0x00, 0x00, 0xFF, 0xFF, 0x00, 0x00, 0x00, 0x01]
      = .err (.generic "Len and nlen do not match") ∧
    decode_zlib [0x78, 0x20, 0x01, 0x00, 0x00, 0xFF, 0xFF, 0x00, 0x00, 0x00, 0x01]
      = decode_zlib [0x78, 0x01, 0x01, 0x00, 0x00, 0xFF, 0xFF, 0x00, 0x00, 0x00, 0x01] :=
  ⟨by decide, rfl, rfl⟩

/-- C10: for every input shorter than the 2 zlib header bytes plus 4
trailer bytes, `decode_zlib` returns `InsufficientData` (lines 68-74); the
result is the same constant for every such input, so no byte of the input
is inspected. -/
theorem C10_short_input (data : Bytes) (h : data.length < 6) :
    decode_zlib data = .err .insufficientData := by
  unfold decode_zlib
  simp [h]

/-- Witness for `C10_short_input` at the concrete input `[0x78]`. -/
theorem C10_short_input_witness :
    decode_zlib [0x78] = .err .insufficientData :=
  C10_short_input [0x78] (by decide)

/-! ### Supporting lemmas for the back-reference copy semantics (C4) -/

theorem getD_set_ne (l : List Nat) (i j v : Nat) (h : i ≠ j) :
    (l.set i v).getD j 0 = l.getD j 0 := by
  rw [List.getD_eq_getElem?_getD, List.getD_eq_getElem?_getD, List.getElem?_set_ne h]

theorem getD_set_self (l : List Nat) (i v : Nat) (h : i < l.length) :
    (l.set i v).getD i 0 = v := by
  rw [List.getD_eq_getElem?_getD, List.getElem?_set_self h]
  rfl

theorem getD_append_lt (l l2 : List Nat) (n : Nat) (h : n < l.length) :
    (l ++ l2).getD n 0 = l.getD n 0 :=
  List.getD_append _ _ _ _ h

theorem crm_length (n : Nat) : ∀ (out : List Nat) (src dest : Nat),
    (copy_rep_matches out src dest n).length = out.length := by
  induction n with
  | zero => intro out src dest; rfl
  | succ n ih =>
    intro out src dest
    simp only [copy_rep_matches]
    rw [ih, List.length_set]

/-- The forward byte-by-byte copy never touches anything below `dest`. -/
theorem crm_getD_lt (n : Nat) : ∀ (out : List Nat) (src dest p : Nat), p < dest →
    (copy_rep_matches out src dest n).getD p 0 = out.getD p 0 := by
  induction n with
  | zero => intro out src dest p _; rfl
  | succ n ih =>
    intro out src dest p hp
    simp only [copy_rep_matches]
    rw [ih _ _ _ _ (Nat.lt_succ_of_lt hp), getD_set_ne _ _ _ _ (by omega)]

theorem succ_mod_dichotomy (j off : Nat) (h : 1 ≤ off) :
    ((j + 1) % off = j % off + 1 ∧ j % off + 1 < off) ∨
    ((j + 1) % off = 0 ∧ j % off + 1 = off) := by
  have hlt : j % off < off := Nat.mod_lt _ h
  rcases Nat.lt_or_ge (j % off + 1) off with h2 | h2
  · left
    refine ⟨?_, h2⟩
    conv_lhs => rw [← Nat.div_add_mod j off, Nat.add_assoc]
    rw [Nat.mul_add_mod, Nat.mod_eq_of_lt h2]
  · right
    have heq : j % off + 1 = off := by omega
    refine ⟨?_, heq⟩
    conv_lhs => rw [← Nat.div_add_mod j off, Nat.add_assoc]
    rw [Nat.mul_add_mod, heq, Nat.mod_self]

/-- The value at `dest + i` after a forward byte-by-byte copy chains back
to the original bytes below `dest`: it is `out[src + i % off]`, where
`off = dest - src` is the back-reference distance. -/
theorem crm_getD_formula (n : Nat) : ∀ (out : List Nat) (src dest off : Nat),
    1 ≤ off → src + off = dest → dest + n ≤ out.length → ∀ i < n,
    (copy_rep_matches out src dest n).getD (dest + i) 0 = out.getD (src + i % off) 0 := by
  induction n with
  | zero => intro out src dest off _ _ _ i hi; omega
  | succ n ih =>
    intro out src dest off h1 hsd hb i hi
    simp only [copy_rep_matches]
    cases i with
    | zero =>
      simp only [Nat.zero_mod, Nat.add_zero]
      rw [crm_getD_lt n _ (src + 1) (dest + 1) dest (by omega)]
      exact getD_set_self _ _ _ (by omega)
    | succ j =>
      have hid : dest + (j + 1) = (dest + 1) + j := by omega
      rw [hid, ih (out.set dest (out.getD src 0)) (src + 1) (dest + 1) off h1 (by omega)
        (by rw [List.length_set]; omega) j (by omega)]
      rcases succ_mod_dichotomy j off h1 with ⟨hmod, hlt⟩ | ⟨hmod, heq⟩
      · rw [getD_set_ne _ _ _ _ (by omega), hmod]
        congr 1
        omega
      · have hix : (src + 1) + j % off = dest := by omega
        rw [hix, getD_set_self _ _ _ (by omega), hmod, Nat.add_zero]

theorem const_copy_succ (out : List Nat) (dsp so da n : Nat) :
    const_copy out dsp so da (n + 1) =
      (const_copy out dsp so da n).set (da + n)
        (if so + n < dsp then out.getD (so + n) 0 else 0) := by
  unfold const_copy
  rw [List.range_succ, List.foldl_append]
  rfl

theorem const_copy_length (out : List Nat) (dsp so da : Nat) : ∀ n,
    (const_copy out dsp so da n).length = out.length := by
  intro n
  induction n with
  | zero => rfl
  | succ n ih => rw [const_copy_succ, List.length_set, ih]

theorem const_copy_getD_lt (out : List Nat) (dsp so da : Nat) (n p : Nat) (hp : p < da) :
    (const_copy out dsp so da n).getD p 0 = out.getD p 0 := by
  induction n with
  | zero => rfl
  | succ n ih => rw [const_copy_succ, getD_set_ne _ _ _ _ (by omega), ih]

theorem const_copy_getD_in (out : List Nat) (dsp so da : Nat) (n : Nat)
    (hb : da + n ≤ out.length) : ∀ i < n,
    (const_copy out dsp so da n).getD (da + i) 0 =
      (if so + i < dsp then out.getD (so + i) 0 else 0) := by
  induction n with
  | zero => intro i hi; omega
  | succ n ih =>
    intro i hi
    rcases Nat.lt_or_ge i n with h | h
    · rw [const_copy_succ, getD_set_ne _ _ _ _ (by omega), ih (by omega) i h]
    · have hin : i = n := by omega
      subst hin
      rw [const_copy_succ, getD_set_self _ _ _ (by rw [const_copy_length]; omega)]

theorem writeRun_succ (out : List Nat) (pos v n : Nat) :
    writeRun out pos v (n + 1) = (writeRun out pos v n).set (pos + n) v := by
  unfold writeRun
  rw [List.range_succ, List.foldl_append]
  rfl

theorem writeRun_length (out : List Nat) (pos v : Nat) : ∀ n,
    (writeRun out pos v n).length = out.length := by
  intro n
  induction n with
  | zero => rfl
  | succ n ih => rw [writeRun_succ, List.length_set, ih]

theorem writeRun_getD_lt (out : List Nat) (pos v n p : Nat) (hp : p < pos) :
    (writeRun out pos v n).getD p 0 = out.getD p 0 := by
  induction n with
  | zero => rfl
  | succ n ih => rw [writeRun_succ, getD_set_ne _ _ _ _ (by omega), ih]

theorem writeRun_getD_in (out : List Nat) (pos v n : Nat) (hb : pos + n ≤ out.length) :
    ∀ k < n, (writeRun out pos v n).getD (pos + k) 0 = v := by
  induction n with
  | zero => intro k hk; omega
  | succ n ih =>
    intro k hk
    rcases Nat.lt_or_ge k n with h | h
    · rw [writeRun_succ, getD_set_ne _ _ _ _ (by omega), ih (by omega) k h]
    · have hkn : k = n := by omega
      subst hkn
      rw [writeRun_succ, getD_set_self _ _ _ (by rw [writeRun_length]; omega)]

theorem rleLoop_length (da rep len : Nat) : ∀ (fuel : Nat) (out : List Nat) (bw : Nat),
    (rleLoop da rep len fuel out bw).length = out.length := by
  intro fuel
  induction fuel with
  | zero => intro out bw; rfl
  | succ fuel ih =>
    intro out bw
    simp only [rleLoop]
    split
    · rw [writeRun_length]
    · rw [ih, writeRun_length]

theorem rleLoop_getD_lt (da rep len : Nat) : ∀ (fuel : Nat) (out : List Nat) (bw p : Nat),
    p < da + bw → (rleLoop da rep len fuel out bw).getD p 0 = out.getD p 0 := by
  intro fuel
  induction fuel with
  | zero => intro out bw p _; rfl
  | succ fuel ih =>
    intro out bw p hp
    simp only [rleLoop]
    split
    · rw [writeRun_getD_lt _ _ _ _ _ hp]
    · rw [ih _ _ _ (by omega), writeRun_getD_lt _ _ _ _ _ hp]

/-- The RLE broadcast loop covers every output position up to `len` with
the repeated byte. -/
theorem rleLoop_covers (da rep len : Nat) : ∀ (fuel : Nat) (out : List Nat) (bw : Nat),
    da + len + 8 ≤ out.length → len + 1 ≤ bw + 8 * fuel →
    ∀ i, bw ≤ i → i ≤ len →
    (rleLoop da rep len fuel out bw).getD (da + i) 0 = rep := by
  intro fuel
  induction fuel with
  | zero => intro out bw _ hf i hbw hil; omega
  | succ fuel ih =>
    intro out bw hb hf i hbw hil
    simp only [rleLoop]
    split
    · have hw := writeRun_getD_in out (da + bw) rep 8 (by omega) (i - bw) (by omega)
      have hidx : da + bw + (i - bw) = da + i := by omega
      rw [hidx] at hw
      exact hw
    · rcases Nat.lt_or_ge i (bw + 8) with h | h
      · rw [rleLoop_getD_lt _ _ _ _ _ _ _ (by omega)]
        have hw := writeRun_getD_in out (da + bw) rep 8 (by omega) (i - bw) (by omega)
        have hidx : da + bw + (i - bw) = da + i := by omega
        rw [hidx] at hw
        exact hw
      · exact ih _ _ (by rw [writeRun_length]; omega) (by omega) i h hil

theorem chunk_length (dsp : Nat) : ∀ (fuel : Nat) (out : List Nat) (so da ml : Nat),
    (fastChunkLoop dsp fuel out so da ml).length = out.length := by
  intro fuel
  induction fuel with
  | zero => intro out so da ml; rfl
  | succ fuel ih =>
    intro out so da ml
    simp only [fastChunkLoop]
    split
    · rw [const_copy_length]
    · rw [ih, const_copy_length]

theorem chunk_getD_lt (dsp : Nat) : ∀ (fuel : Nat) (out : List Nat) (so da ml p : Nat),
    p < da → (fastChunkLoop dsp fuel out so da ml).getD p 0 = out.getD p 0 := by
  intro fuel
  induction fuel with
  | zero => intro out so da ml p _; rfl
  | succ fuel ih =>
    intro out so da ml p hp
    simp only [fastChunkLoop]
    split
    · exact const_copy_getD_lt _ _ _ _ _ _ hp
    · rw [ih _ _ _ _ _ (by omega), const_copy_getD_lt _ _ _ _ _ _ hp]

/-- The 16-byte-chunk loop copies the source region verbatim (reads stay
below `dsp`, where the buffer agrees with `base`). -/
theorem chunk_covers (dsp : Nat) (base : List Nat) : ∀ (fuel : Nat) (out : List Nat)
    (so da ml : Nat),
    (∀ q, q < dsp → out.getD q 0 = base.getD q 0) →
    dsp ≤ da → 16 ≤ ml → so + ml ≤ dsp → da + ml ≤ out.length → ml ≤ 16 * fuel + 16 →
    ∀ i, i < ml - 16 →
    (fastChunkLoop dsp fuel out so da ml).getD (da + i) 0 = base.getD (so + i) 0 := by
  intro fuel
  induction fuel with
  | zero => intro out so da ml _ _ _ _ _ hfuel i hi; omega
  | succ fuel ih =>
    intro out so da ml hlow hda h16 hinv hbound hfuel i hi
    simp only [fastChunkLoop]
    have hlow1 : ∀ q, q < dsp →
        (const_copy out dsp so da FASTCOPY_BITS).getD q 0 = base.getD q 0 := by
      intro q hq
      rw [const_copy_getD_lt _ _ _ _ _ _ (by omega)]
      exact hlow q hq
    have hcc16 : ∀ k, k < FASTCOPY_BITS →
        (const_copy out dsp so da FASTCOPY_BITS).getD (da + k) 0 = base.getD (so + k) 0 := by
      intro k hk
      rw [const_copy_getD_in out dsp so da FASTCOPY_BITS
          (by simp only [FASTCOPY_BITS] at *; omega) k hk,
        if_pos (by simp only [FASTCOPY_BITS] at *; omega)]
      exact hlow _ (by simp only [FASTCOPY_BITS] at *; omega)
    split
    · next hml =>
      exact hcc16 i (by simp only [FASTCOPY_BITS] at *; omega)
    · next hml =>
      rcases Nat.lt_or_ge i FASTCOPY_BITS with hi16 | hi16
      · rw [chunk_getD_lt dsp fuel _ _ _ _ _ (by simp only [FASTCOPY_BITS] at *; omega)]
        exact hcc16 i hi16
      · have hrec := ih (const_copy out dsp so da FASTCOPY_BITS) (so + FASTCOPY_BITS)
          (da + FASTCOPY_BITS) (ml - FASTCOPY_BITS) hlow1
          (by omega) (by simp only [FASTCOPY_BITS] at *; omega)
          (by simp only [FASTCOPY_BITS] at *; omega)
          (by rw [const_copy_length]; simp only [FASTCOPY_BITS] at *; omega)
          (by simp only [FASTCOPY_BITS] at *; omega)
          (i - FASTCOPY_BITS) (by simp only [FASTCOPY_BITS] at *; omega)
        have hidx1 : da + FASTCOPY_BITS + (i - FASTCOPY_BITS) = da + i := by
          simp only [FASTCOPY_BITS] at *; omega
        have hidx2 : so + FASTCOPY_BITS + (i - FASTCOPY_BITS) = so + i := by
          simp only [FASTCOPY_BITS] at *; omega
        rw [hidx1, hidx2] at hrec
        exact hrec

/-- The most-recent-value property of the forward byte-by-byte copy. -/
theorem crm_spec (out2 outOrig : List Nat) (dest len off : Nat)
    (h1 : 1 ≤ off) (hle : off ≤ dest)
    (hb : dest + len ≤ out2.length)
    (hlow : ∀ p, p < dest → out2.getD p 0 = outOrig.getD p 0) :
    (∀ i < len,
      (copy_rep_matches out2 (dest - off) dest len).getD (dest + i) 0 =
      (copy_rep_matches out2 (dest - off) dest len).getD (dest + i - off) 0) ∧
    (off = 1 → ∀ i < len,
      (copy_rep_matches out2 (dest - off) dest len).getD (dest + i) 0 =
        outOrig.getD (dest - 1) 0) := by
  have hsd : (dest - off) + off = dest := by omega
  have hform := crm_getD_formula len out2 (dest - off) dest off h1 hsd hb
  constructor
  · intro i hi
    rcases Nat.lt_or_ge i off with hio | hio
    · have hidx : dest + i - off = (dest - off) + i := by omega
      rw [hform i hi, hidx, crm_getD_lt _ _ _ _ _ (by omega), Nat.mod_eq_of_lt hio]
    · have hidx : dest + i - off = dest + (i - off) := by omega
      have hmm : i % off = (i - off) % off := by
        conv_lhs => rw [show i = (i - off) + off by omega]
        exact Nat.add_mod_right _ _
      rw [hform i hi, hidx, hform (i - off) (by omega), hmm]
  · intro hoff1 i hi
    rw [hform i hi, hoff1, Nat.mod_one, Nat.add_zero, hlow _ (by omega)]

/-- The disjoint direct copy also satisfies the most-recent-value
property, because its source region is never overwritten. -/
theorem cc_direct_spec (out2 : List Nat) (dest len off : Nat)
    (hle : off ≤ dest)
    (hoffbig : len + FASTCOPY_BITS ≤ off)
    (hb : dest + len ≤ out2.length) :
    ∀ i < len,
      (const_copy out2 dest (dest - off) dest len).getD (dest + i) 0 =
      (const_copy out2 dest (dest - off) dest len).getD (dest + i - off) 0 := by
  intro i hi
  have hcc := const_copy_getD_in out2 dest (dest - off) dest len hb i hi
  rw [hcc, if_pos (by simp only [FASTCOPY_BITS] at *; omega)]
  have hidx : dest + i - off = (dest - off) + i := by simp only [FASTCOPY_BITS] at *; omega
  rw [hidx, const_copy_getD_lt _ _ _ _ _ _ (by simp only [FASTCOPY_BITS] at *; omega)]

/-- Successful-case semantics of the safe-loop back-reference copy. -/
theorem safeBackref_spec (out : List Nat) (dest len off : Nat)
    (h1 : 1 ≤ off) (hle : off ≤ dest) (hd : dest ≤ out.length) :
    ∃ o, safeBackref out dest len off = .ok o ∧
      (∀ i < len, o.getD (dest + i) 0 = o.getD (dest + i - off) 0) ∧
      (off = 1 → ∀ i < len, o.getD (dest + i) 0 = out.getD (dest - 1) 0) := by
  unfold safeBackref
  set out2 := (if dest + len + FASTCOPY_BITS > out.length then
    out ++ List.replicate (RESIZE_BY + len) 0 else out) with hout2def
  have hL2 : dest + len + FASTCOPY_BITS ≤ out2.length := by
    rw [hout2def]
    split
    · rw [List.length_append, List.length_replicate]
      simp only [FASTCOPY_BITS, RESIZE_BY] at *
      omega
    · omega
  have hp2 : ∀ p, p < dest → out2.getD p 0 = out.getD p 0 := by
    intro p hp
    rw [hout2def]
    split
    · exact getD_append_lt _ _ _ (by omega)
    · rfl
  rw [if_neg (by omega)]
  by_cases hov : dest - off + len + FASTCOPY_BITS > dest
  · rw [if_pos hov]
    obtain ⟨hiii, hiv⟩ := crm_spec out2 out dest len off h1 hle (by omega) hp2
    exact ⟨_, rfl, hiii, hiv⟩
  · rw [if_neg hov]
    refine ⟨_, rfl, ?_, ?_⟩
    · exact cc_direct_spec out2 dest len off hle (by simp only [FASTCOPY_BITS] at *; omega)
        (by omega)
    · intro hoff1
      exfalso
      simp only [FASTCOPY_BITS] at hov
      omega

/-- Successful-case semantics of the fast-loop back-reference copy. -/
theorem fastBackref_spec (out : List Nat) (dest len off : Nat)
    (h1 : 1 ≤ off) (hle : off ≤ dest) (hd : dest ≤ out.length) (hlen : len ≤ 258) :
    ∃ o, fastBackref out dest len off = .ok o ∧
      (∀ i < len, o.getD (dest + i) 0 = o.getD (dest + i - off) 0) ∧
      (off = 1 → ∀ i < len, o.getD (dest + i) 0 = out.getD (dest - 1) 0) := by
  unfold fastBackref
  rw [if_neg (by omega)]
  set out2 := (if dest + len + FASTCOPY_BITS > out.length then
    out ++ List.replicate (RESIZE_BY + len) 0 else out) with hout2def
  have hL2 : dest + len + FASTCOPY_BITS ≤ out2.length := by
    rw [hout2def]
    split
    · rw [List.length_append, List.length_replicate]
      simp only [FASTCOPY_BITS, RESIZE_BY] at *
      omega
    · omega
  have hp2 : ∀ p, p < dest → out2.getD p 0 = out.getD p 0 := by
    intro p hp
    rw [hout2def]
    split
    · exact getD_append_lt _ _ _ (by omega)
    · rfl
  set out3 := const_copy out2 dest (dest - off) dest FASTCOPY_BITS with hout3def
  have hL3 : out3.length = out2.length := by
    rw [hout3def, const_copy_length]
  have hp3 : ∀ p, p < dest → out3.getD p 0 = out.getD p 0 := by
    intro p hp
    rw [hout3def, const_copy_getD_lt _ _ _ _ _ _ hp]
    exact hp2 p hp
  by_cases hoff1 : off = 1
  · subst hoff1
    rw [if_pos rfl]
    have hcov := rleLoop_covers dest (out3.getD (dest - 1) 0) len 40 out3 0
      (by simp only [FASTCOPY_BITS] at hL2; omega) (by omega)
    have hrep : out3.getD (dest - 1) 0 = out.getD (dest - 1) 0 := hp3 _ (by omega)
    refine ⟨_, rfl, ?_, ?_⟩
    · intro i hi
      rw [hcov i (by omega) (by omega)]
      cases i with
      | zero =>
        rw [show dest + 0 - 1 = dest - 1 by omega,
          rleLoop_getD_lt _ _ _ _ _ _ _ (by omega)]
      | succ j =>
        rw [show dest + (j + 1) - 1 = dest + j by omega, hcov j (by omega) (by omega)]
    · intro _ i hi
      rw [hcov i (by omega) (by omega)]
      exact hrep
  · rw [if_neg hoff1]
    by_cases hov : dest - off + len + FASTCOPY_BITS > dest
    · rw [if_pos hov]
      obtain ⟨hiii, hiv⟩ := crm_spec out3 out dest len off h1 hle
        (by simp only [FASTCOPY_BITS] at hL2; omega) hp3
      exact ⟨_, rfl, hiii, fun h => absurd h hoff1⟩
    · rw [if_neg hov]
      have hoffbig : len + FASTCOPY_BITS ≤ off := by
        simp only [FASTCOPY_BITS] at *
        omega
      by_cases hbig : len > FASTCOPY_BITS
      · rw [if_pos hbig]
        refine ⟨_, rfl, ?_, fun h => absurd h hoff1⟩
        intro i hi
        have hval : (fastChunkLoop dest 40 out3 (dest - off + FASTCOPY_BITS)
            (dest + FASTCOPY_BITS) len).getD (dest + i) 0 = out2.getD (dest - off + i) 0 := by
          rcases Nat.lt_or_ge i FASTCOPY_BITS with h16 | h16
          · rw [chunk_getD_lt _ _ _ _ _ _ _ (by omega), hout3def,
              const_copy_getD_in _ _ _ _ _ (by simp only [FASTCOPY_BITS] at *; omega) i h16,
              if_pos (by simp only [FASTCOPY_BITS] at *; omega)]
          · have hch := chunk_covers dest out2 40 out3 (dest - off + FASTCOPY_BITS)
              (dest + FASTCOPY_BITS) len
              (fun q hq => by rw [hout3def, const_copy_getD_lt _ _ _ _ _ _ hq])
              (by omega) (by simp only [FASTCOPY_BITS] at *; omega)
              (by simp only [FASTCOPY_BITS] at *; omega)
              (by rw [hL3]; simp only [FASTCOPY_BITS] at *; omega)
              (by simp only [FASTCOPY_BITS] at *; omega)
              (i - FASTCOPY_BITS) (by simp only [FASTCOPY_BITS] at *; omega)
            rw [show dest + FASTCOPY_BITS + (i - FASTCOPY_BITS) = dest + i by
                simp only [FASTCOPY_BITS] at *; omega,
              show dest - off + FASTCOPY_BITS + (i - FASTCOPY_BITS) = dest - off + i by
                simp only [FASTCOPY_BITS] at *; omega] at hch
            exact hch
        have hval2 : (fastChunkLoop dest 40 out3 (dest - off + FASTCOPY_BITS)
            (dest + FASTCOPY_BITS) len).getD (dest + i - off) 0
              = out2.getD (dest - off + i) 0 := by
          rw [show dest + i - off = dest - off + i by simp only [FASTCOPY_BITS] at *; omega,
            chunk_getD_lt _ _ _ _ _ _ _ (by simp only [FASTCOPY_BITS] at *; omega),
            hout3def, const_copy_getD_lt _ _ _ _ _ _ (by simp only [FASTCOPY_BITS] at *; omega)]
        rw [hval, hval2]
      · rw [if_neg hbig]
        refine ⟨_, rfl, ?_, fun h => absurd h hoff1⟩
        intro i hi
        have h16 : i < FASTCOPY_BITS := by simp only [FASTCOPY_BITS] at *; omega
        rw [const_copy_getD_in _ _ _ _ _ (by simp only [FASTCOPY_BITS] at *; omega) i h16,
          if_pos (by simp only [FASTCOPY_BITS] at *; omega)]
        rw [show dest + i - off = dest - off + i by simp only [FASTCOPY_BITS] at *; omega,
          const_copy_getD_lt _ _ _ _ _ _ (by simp only [FASTCOPY_BITS] at *; omega)]

/-- C4: in both the fast and the safe inner loops, a back-reference whose
offset exceeds the bytes already written is `CorruptData`; otherwise each of
the `len` copied bytes at `dest + i` equals the byte at `dest + i - off`
using the most recent value, and a match with offset 1 appends repetitions
of the byte immediately before the write cursor.  `safeBackref` and
`fastBackref` are the back-reference handling of the safe loop (lines
574-613) and the fast loop (lines 397-498); the length bound is the maximum
DEFLATE match length. -/
theorem C4_backref_semantics (out : List Nat) (dest len off : Nat)
    (h1 : 1 ≤ off) (hd : dest ≤ out.length) (hlen : len ≤ 258) :
    (off > dest →
      safeBackref out dest len off = .err .corruptData ∧
      fastBackref out dest len off = .err .corruptData) ∧
    (off ≤ dest →
      ∃ o1 o2,
        safeBackref out dest len off = .ok o1 ∧
        fastBackref out dest len off = .ok o2 ∧
        (∀ i < len,
          o1.getD (dest + i) 0 = o1.getD (dest + i - off) 0 ∧
          o2.getD (dest + i) 0 = o2.getD (dest + i - off) 0) ∧
        (off = 1 → ∀ i < len,
          o1.getD (dest + i) 0 = out.getD (dest - 1) 0 ∧
          o2.getD (dest + i) 0 = out.getD (dest - 1) 0)) := by
  constructor
  · intro hgt
    constructor
    · unfold safeBackref
      rw [if_pos hgt]
    · unfold fastBackref
      rw [if_pos hgt]
  · intro hle
    obtain ⟨o1, he1, hiii1, hiv1⟩ := safeBackref_spec out dest len off h1 hle hd
    obtain ⟨o2, he2, hiii2, hiv2⟩ := fastBackref_spec out dest len off h1 hle hd hlen
    exact ⟨o1, o2, he1, he2,
      fun i hi => ⟨hiii1 i hi, hiii2 i hi⟩,
      fun h i hi => ⟨hiv1 h i hi, hiv2 h i hi⟩⟩

/-- Witness for `C4_backref_semantics`: an offset-1 length-3 match appended
to the two-byte output `[5, 7]`. -/
theorem C4_backref_semantics_witness :
    ∃ o1 o2,
      safeBackref [5, 7] 2 3 1 = .ok o1 ∧
      fastBackref [5, 7] 2 3 1 = .ok o2 ∧
      (∀ i < 3, o1.getD (2 + i) 0 = o1.getD (2 + i - 1) 0 ∧
                o2.getD (2 + i) 0 = o2.getD (2 + i - 1) 0) ∧
      ((1 : Nat) = 1 → ∀ i < 3, o1.getD (2 + i) 0 = [5, 7].getD (2 - 1) 0 ∧
                o2.getD (2 + i) 0 = [5, 7].getD (2 - 1) 0) :=
  (C4_backref_semantics [5, 7] 2 3 1 (by decide) (by decide) (by decide)).2 (by decide)

/-! ### Code-length repeat semantics (C6, amended) -/

/-- `fillRangeL` writes `v` at every index of `[start, start + n)` that is
inside the list. -/
theorem fillRangeL_getD (l : List Nat) (start n v j : Nat)
    (h1 : start ≤ j) (h2 : j < start + n) (h3 : j < l.length) :
    (fillRangeL l start n v).getD j 0 = v := by
  have hsl : start ≤ l.length := le_of_lt (lt_of_le_of_lt h1 h3)
  unfold fillRangeL
  rw [List.getD_eq_getElem?_getD, List.append_assoc, List.getElem?_append_right
    (by rw [List.length_take]; omega)]
  rw [List.getElem?_append, List.length_take]
  have hj : j - start ⊓ l.length < (List.replicate (min n (l.length - start)) v).length := by
    rw [List.length_replicate]; omega
  rw [if_pos hj, List.getElem?_replicate, if_pos (by rw [List.length_replicate] at hj; omega)]
  rfl

/-- C6 (amended): one step of the code-length reading loop, for a buffered
stream whose next precode symbol is 16, 17 or 18.  Symbol 16 with no
previous length is `CorruptData`; with a previous length it writes
`3 + (2 extra bits)` copies of it and advances by that count; 17 writes
`3 + (3 extra bits)` zeros; 18 writes `11 + (7 extra bits)` zeros.  In each
case the step returns `doneP` — a success — whenever the advanced index
reaches **or passes** the target, so a repeat overrunning the target is not
an error (the claim's `CorruptData` for overruns does not happen; see the
counterexample). -/
theorem C6_amended_repeat_semantics (tbl : Nat → Nat) (target : Nat)
    (lens : List Nat) (i : Nat) (s : BitStreamReader) (e : Nat)
    (hbits : s.has (DEFLATE_MAX_PRE_CODEWORD_LEN + 7) = true)
    (hentry : tbl (s.peekBits DEFLATE_MAX_PRE_CODEWORD_LEN) = e)
    (hconsume : s.has (e % 256) = true) :
    (e >>> 16 = 16 → i = 0 →
      precodeStep tbl target lens i s = .errP .corruptData) ∧
    (e >>> 16 = 16 → i ≠ 0 → (s.dropBits (e % 256)).has 2 = true → i + 6 ≤ lens.length →
      ∃ lens2 s2,
        precodeStep tbl target lens i s =
          (if i + (3 + (s.dropBits (e % 256)).peekBits 2) ≥ target then PreStep.doneP lens2 s2
           else PreStep.contP lens2 (i + (3 + (s.dropBits (e % 256)).peekBits 2)) s2) ∧
        (∀ j < 3 + (s.dropBits (e % 256)).peekBits 2,
          lens2.getD (i + j) 0 = lens.getD (i - 1) 0)) ∧
    (e >>> 16 = 17 → (s.dropBits (e % 256)).has 3 = true → i + 10 ≤ lens.length →
      ∃ lens2 s2,
        precodeStep tbl target lens i s =
          (if i + (3 + (s.dropBits (e % 256)).peekBits 3) ≥ target then PreStep.doneP lens2 s2
           else PreStep.contP lens2 (i + (3 + (s.dropBits (e % 256)).peekBits 3)) s2) ∧
        (∀ j < 3 + (s.dropBits (e % 256)).peekBits 3,
          lens2.getD (i + j) 0 = 0)) ∧
    (e >>> 16 = 18 → (s.dropBits (e % 256)).has 7 = true →
        i + (11 + (s.dropBits (e % 256)).peekBits 7) ≤ lens.length →
      ∃ lens2 s2,
        precodeStep tbl target lens i s =
          (if i + (11 + (s.dropBits (e % 256)).peekBits 7) ≥ target then PreStep.doneP lens2 s2
           else PreStep.contP lens2 (i + (11 + (s.dropBits (e % 256)).peekBits 7)) s2) ∧
        (∀ j < 11 + (s.dropBits (e % 256)).peekBits 7,
          lens2.getD (i + j) 0 = 0)) := by
  refine ⟨?_, ?_, ?_, ?_⟩
  · intro h16 hi0
    unfold precodeStep
    simp [hbits, hentry, hconsume, h16, hi0]
  · intro h16 hi0 h2 hlen
    refine ⟨fillRangeL lens i 6 (lens.getD (i - 1) 0), (s.dropBits (e % 256)).dropBits 2, ?_, ?_⟩
    · unfold precodeStep
      simp [hbits, hentry, hconsume, h16, hi0, h2]
    · intro j hj
      have hp : (s.dropBits (e % 256)).peekBits 2 < 4 := by
        unfold BitStreamReader.peekBits
        exact Nat.lt_of_lt_of_le (Nat.mod_lt _ (by norm_num)) (by norm_num)
      exact fillRangeL_getD _ _ _ _ _ (Nat.le_add_right i j) (by omega) (by omega)
  · intro h17 h3 hlen
    refine ⟨fillRangeL lens i 10 0, (s.dropBits (e % 256)).dropBits 3, ?_, ?_⟩
    · unfold precodeStep
      simp [hbits, hentry, hconsume, h17, h3]
    · intro j hj
      have hp : (s.dropBits (e % 256)).peekBits 3 < 8 := by
        unfold BitStreamReader.peekBits
        exact Nat.lt_of_lt_of_le (Nat.mod_lt _ (by norm_num)) (by norm_num)
      exact fillRangeL_getD _ _ _ _ _ (Nat.le_add_right i j) (by omega) (by omega)
  · intro h18 h7 hlen
    refine ⟨fillRangeL lens i (11 + (s.dropBits (e % 256)).peekBits 7) 0,
            (s.dropBits (e % 256)).dropBits 7, ?_, ?_⟩
    · unfold precodeStep
      simp [hbits, hentry, hconsume, h18, h7]
    · intro j hj
      exact fillRangeL_getD _ _ _ _ _ (Nat.le_add_right i j) (by omega) (by omega)

/-- Witness for `C6_amended_repeat_semantics`: symbol 16 with no previous
length fails with `CorruptData`. -/
theorem C6_amended_repeat_semantics_witness :
    precodeStep (fun _ => (16 <<< 16) ||| 1) 258 (List.replicate 457 0) 0
      ((BitStreamReader.new (List.replicate 8 0xFF)).refill) = .errP .corruptData :=
  (C6_amended_repeat_semantics (fun _ => (16 <<< 16) ||| 1) 258 (List.replicate 457 0) 0
    ((BitStreamReader.new (List.replicate 8 0xFF)).refill) ((16 <<< 16) ||| 1)
    (by decide) rfl (by decide)).1 (by decide) rfl

/-! ### Header checks ignore the preset-dictionary bit (C7, amended) -/

/-- C7 (amended): `decode_zlib` checks `CM = 8`, `CINFO ≤ 7` and the FCHECK
residue of the first two bytes, and nothing else: every input passing those
three checks proceeds into DEFLATE decoding of the payload, whether or not
the preset-dictionary bit `FLG & 0x20` is set — the bit is never
inspected. -/
theorem C7_amended_header_ignores_fdict (data : Bytes)
    (hlen : ¬ data.length < 2 + 4)
    (hcm : data.getD 0 0 % 16 = 8)
    (hcinfo : ¬ data.getD 0 0 / 16 > 7)
    (hfcheck : (data.getD 0 0 * 256 + data.getD 1 0) % 31 = 0) :
    decode_zlib data = start_deflate_block data 2 := by
  simp only [List.getD_eq_getElem?_getD] at hcm hcinfo hfcheck
  unfold decode_zlib
  simp [hlen, hcm, hcinfo, hfcheck]

/-- Witness for `C7_amended_header_ignores_fdict` at an input with the
preset-dictionary bit set (`FLG = 0x20`). -/
theorem C7_amended_header_ignores_fdict_witness :
    decode_zlib [0x78, 0x20, 0x03, 0x00, 0x00, 0x00, 0x00, 0x01]
      = start_deflate_block [0x78, 0x20, 0x03, 0x00, 0x00, 0x00, 0x00, 0x01] 2 :=
  C7_amended_header_ignores_fdict _ (by decide) (by decide) (by decide) (by decide)

/-! ### Static tables and their caching (C9) -/

/-- A result whose `isOk` test passes is `ok` of its payload. -/
theorem Res.eq_ok_of_isOk {α : Type} (d : α) (r : Res α) (h : r.isOk = true) :
    r = .ok (r.getOk d) := by
  cases r <;> first | rfl | simp [Res.isOk] at h

/-- C9: a static block uses the fixed litlen code lengths (8 for symbols
0-143, 9 for 144-255, 7 for 256-279, 8 for 280-287) and the fixed offset
code (all lengths 5, from index 288 of the shared scratch array onward);
the static tables are built once per decoder — a static block finding
`static_codes_loaded` set returns with the state and stream untouched, and
building from an unloaded state yields a state with the flag set (and does
not consume stream bits). -/
theorem C9_static_tables (st : DecoderState) (s : BitStreamReader) :
    (∀ i < 144, staticLensArray.getD i 0 = 8) ∧
    (∀ i < 256, 144 ≤ i → staticLensArray.getD i 0 = 9) ∧
    (∀ i < 280, 256 ≤ i → staticLensArray.getD i 0 = 7) ∧
    (∀ i < 288, 280 ≤ i → staticLensArray.getD i 0 = 8) ∧
    (∀ i < LENS_COUNT, 288 ≤ i → staticLensArray.getD i 0 = 5) ∧
    (st.static_codes_loaded = true →
      build_decode_table st DEFLATE_BLOCKTYPE_STATIC s = .ok (st, s)) ∧
    (st.static_codes_loaded = false →
      ∃ T, build_decode_table st DEFLATE_BLOCKTYPE_STATIC s
        = .ok ({ static_codes_loaded := true, tables := T }, s)) := by
  refine ⟨by decide, by decide, by decide, by decide, by decide, ?_, ?_⟩
  · intro h
    unfold build_decode_table
    rw [if_neg (show ¬ (DEFLATE_BLOCKTYPE_STATIC = DEFLATE_BLOCKTYPE_DYNAMIC_HUFFMAN) by decide),
        if_pos rfl, if_pos h]
  · intro h
    have hoff : build_decode_table_inner (staticLensArray.drop DEFLATE_NUM_LITLEN_SYMS)
        OFFSET_DECODE_RESULTS OFFSET_TABLEBITS DEFLATE_NUM_OFFSET_SYMS
        DEFLATE_MAX_OFFSET_CODEWORD_LENGTH = .ok staticOffsetTable :=
      Res.eq_ok_of_isOk (fun _ => 0) _ rfl
    have hlit : build_decode_table_inner staticLensArray LITLEN_DECODE_RESULTS
        LITLEN_TABLE_BITS DEFLATE_NUM_LITLEN_SYMS DEFLATE_MAX_LITLEN_CODEWORD_LENGTH
        = .ok staticLitlenTable :=
      Res.eq_ok_of_isOk (fun _ => 0) _ rfl
    unfold build_decode_table
    rw [if_neg (show ¬ (DEFLATE_BLOCKTYPE_STATIC = DEFLATE_BLOCKTYPE_DYNAMIC_HUFFMAN) by decide),
        if_pos rfl, if_neg (by simp [h])]
    unfold buildLitlenOffset
    rw [hoff, hlit]
    exact ⟨{ litlen_decode_table := staticLitlenTable,
             offset_decode_table := staticOffsetTable }, rfl⟩

/-- Witness for `C9_static_tables`: the first static length, and a build
from the fresh decoder state. -/
theorem C9_static_tables_witness :
    staticLensArray.getD 0 0 = 8 ∧
    (∃ T, build_decode_table initState DEFLATE_BLOCKTYPE_STATIC (BitStreamReader.new [])
      = .ok ({ static_codes_loaded := true, tables := T }, BitStreamReader.new [])) :=
  ⟨(C9_static_tables initState (BitStreamReader.new [])).1 0 (by decide),
   (C9_static_tables initState (BitStreamReader.new [])).2.2.2.2.2.2 rfl⟩

end ZuneInflate
